import Mathlib

/-!
Shallow embedding of the NovaMint contract (`contract NovaMint` in the
repository's Solidity source): an encrypted-owner NFT collection ledger with
operations `createCollection`, `setHiddenOwner`, `mint` and read accessors.

Modelling conventions:
* `uint256` values are `Nat`; Solidity 0.8 checked arithmetic reverts on
  overflow, embedded as an explicit `Err.Panic` branch wherever the source
  performs an addition whose result must fit in `uint256`.
* Addresses are `Nat`, with `0` playing the role of `address(0)`.
* An EVM revert rolls the whole transaction back, so each operation returns
  `Except Err (result × LedgerState)`: on error no new state is produced and
  the caller-level semantics (`stepState`) keeps the pre-call state.
* `FHE.fromExternal` belongs to the external encrypted-field collaborator; its
  outcome is injected as an `Option Nat` argument (`none` = proof validation
  failure, `some h` = validated opaque handle `h`). `FHE.allowThis`/`FHE.allow`
  act only on the collaborator's ACL, not on ledger state, and are not part of
  the embedded state.
* Solidity mappings are total functions with the zero default; a `Collection`
  that was never written is the all-zero record with `exists = false`.
-/

namespace NovaMint

/-- Mirrors `struct Collection` of the source. -/
structure Collection where
  name : String
  maxSupply : Nat
  minted : Nat
  creator : Nat
  baseTokenId : Nat
  hiddenOwner : Nat
  existsFlag : Bool
deriving Repr, DecidableEq

/-- Solidity zero-value of `struct Collection` (a mapping slot never written). -/
def defaultCollection : Collection :=
  { name := "", maxSupply := 0, minted := 0, creator := 0, baseTokenId := 0,
    hiddenOwner := 0, existsFlag := false }

/-- Mirrors `struct CollectionView` of the source. -/
structure CollectionView where
  id : Nat
  name : String
  maxSupply : Nat
  minted : Nat
  creator : Nat
  baseTokenId : Nat
  hiddenOwner : Nat
deriving Repr, DecidableEq

/-- The contract's storage: `_collectionCount`, `_nextTokenId`, and the four
mappings `_collections`, `_tokenToCollection`, `_owners`, `_balances`. -/
structure LedgerState where
  collectionCount : Nat
  nextTokenId : Nat
  collections : Nat → Collection
  tokenToCollection : Nat → Nat
  owners : Nat → Nat
  balances : Nat → Nat

/-- Contract state right after deployment: counters at their declared initial
values (`_collectionCount = 0`, `_nextTokenId = 1`), all mappings zero. -/
def initState : LedgerState :=
  { collectionCount := 0, nextTokenId := 1,
    collections := fun _ => defaultCollection,
    tokenToCollection := fun _ => 0,
    owners := fun _ => 0,
    balances := fun _ => 0 }

/-- Largest value representable in `uint256`. -/
def uintMax : Nat := 2 ^ 256 - 1

/-- The contract's declared errors, plus `InvalidFHEInput` for a failure of
the external encrypted-input validation (`FHE.fromExternal`) and `Panic` for a
Solidity 0.8 checked-arithmetic overflow revert. -/
inductive Err where
  | InvalidCollection
  | SupplyExhausted
  | EmptyName
  | InvalidSupply
  | NotCollectionOwner
  | ZeroAddress
  | InvalidToken
  | InvalidFHEInput
  | Panic
deriving Repr, DecidableEq

/-- State written by a successful `createCollection`: `collectionId = ++_collectionCount`,
`baseId = _nextTokenId` before `_nextTokenId += maxSupply`, and the stored
record `Collection({name, maxSupply, minted: 0, creator: msg.sender, baseTokenId: baseId, hiddenOwner, exists: true})`. -/
def createResultState (s : LedgerState) (sender : Nat) (collectionName : String)
    (maxSupply encryptedOwner : Nat) : LedgerState :=
  { collectionCount := s.collectionCount + 1
    nextTokenId := s.nextTokenId + maxSupply
    collections := fun i =>
      if i = s.collectionCount + 1 then
        { name := collectionName, maxSupply := maxSupply, minted := 0,
          creator := sender, baseTokenId := s.nextTokenId,
          hiddenOwner := encryptedOwner, existsFlag := true }
      else s.collections i
    tokenToCollection := s.tokenToCollection
    owners := s.owners
    balances := s.balances }

/-- Function `createCollection(collectionName, maxSupply, hiddenOwnerInput, inputProof)`.
`sender` is `msg.sender`; `fheInput` is the outcome of
`FHE.fromExternal(hiddenOwnerInput, inputProof)`. The two `Panic` branches
embed the checked increments `++_collectionCount` and `_nextTokenId += maxSupply`. -/
def createCollection (s : LedgerState) (sender : Nat) (collectionName : String)
    (maxSupply : Nat) (fheInput : Option Nat) : Except Err (Nat × LedgerState) :=
  if collectionName.length = 0 then .error .EmptyName
  else if maxSupply = 0 then .error .InvalidSupply
  else match fheInput with
  | none => .error .InvalidFHEInput
  | some encryptedOwner =>
    if s.collectionCount + 1 > uintMax then .error .Panic
    else if s.nextTokenId + maxSupply > uintMax then .error .Panic
    else
      .ok (s.collectionCount + 1,
           createResultState s sender collectionName maxSupply encryptedOwner)

/-- State written by a successful `setHiddenOwner`: the single assignment
`_collections[collectionId].hiddenOwner = encryptedOwner`. -/
def setHiddenResultState (s : LedgerState) (collectionId encryptedOwner : Nat) : LedgerState :=
  { s with collections := fun i =>
      if i = collectionId then
        { s.collections collectionId with hiddenOwner := encryptedOwner }
      else s.collections i }

/-- Function `setHiddenOwner(collectionId, hiddenOwnerInput, inputProof)` with its
`onlyCollectionOwner(collectionId)` modifier. The modifier's two checks run
before `FHE.fromExternal`. -/
def setHiddenOwner (s : LedgerState) (sender : Nat) (collectionId : Nat)
    (fheInput : Option Nat) : Except Err LedgerState :=
  if (s.collections collectionId).existsFlag = false then .error .InvalidCollection
  else if (s.collections collectionId).creator ≠ sender then .error .NotCollectionOwner
  else match fheInput with
  | none => .error .InvalidFHEInput
  | some encryptedOwner => .ok (setHiddenResultState s collectionId encryptedOwner)

/-- State written by a successful `mint`: `tokenId = baseTokenId + minted`,
`minted += 1`, `_owners[tokenId] = msg.sender`, `_balances[msg.sender] += 1`,
`_tokenToCollection[tokenId] = collectionId`. -/
def mintResultState (s : LedgerState) (sender collectionId : Nat) : LedgerState :=
  let collection := s.collections collectionId
  let tokenId := collection.baseTokenId + collection.minted
  { collectionCount := s.collectionCount
    nextTokenId := s.nextTokenId
    collections := fun i =>
      if i = collectionId then { collection with minted := collection.minted + 1 }
      else s.collections i
    tokenToCollection := fun t =>
      if t = tokenId then collectionId else s.tokenToCollection t
    owners := fun t => if t = tokenId then sender else s.owners t
    balances := fun a =>
      if a = sender then s.balances sender + 1 else s.balances a }

/-- Function `mint(collectionId)`. The three `Panic` branches embed the checked
additions `collection.baseTokenId + collection.minted`, `collection.minted += 1`
and `_balances[msg.sender] += 1`; a panic anywhere reverts the whole call, so
no partial state is produced. -/
def mint (s : LedgerState) (sender : Nat) (collectionId : Nat) :
    Except Err (Nat × LedgerState) :=
  let collection := s.collections collectionId
  if collection.existsFlag = false then .error .InvalidCollection
  else if collection.minted ≥ collection.maxSupply then .error .SupplyExhausted
  else
    if collection.baseTokenId + collection.minted > uintMax then .error .Panic
    else if collection.minted + 1 > uintMax then .error .Panic
    else if s.balances sender + 1 > uintMax then .error .Panic
    else .ok (collection.baseTokenId + collection.minted, mintResultState s sender collectionId)

/-- Function `getCollection(collectionId)`. -/
def getCollection (s : LedgerState) (collectionId : Nat) : Except Err CollectionView :=
  let collection := s.collections collectionId
  if collection.existsFlag = false then .error .InvalidCollection
  else .ok { id := collectionId, name := collection.name,
             maxSupply := collection.maxSupply, minted := collection.minted,
             creator := collection.creator, baseTokenId := collection.baseTokenId,
             hiddenOwner := collection.hiddenOwner }

/-- The loop body of `getAllCollections`: views of collections `1..n`, in order,
propagating any revert of `getCollection` as the loop in the source would. -/
def collectViews (s : LedgerState) : Nat → Except Err (List CollectionView)
  | 0 => .ok []
  | n + 1 => do
      let pre ← collectViews s n
      let v ← getCollection s (n + 1)
      pure (pre ++ [v])

/-- Function `getAllCollections()`: `getCollection(i+1)` for `i = 0.._collectionCount-1`. -/
def getAllCollections (s : LedgerState) : Except Err (List CollectionView) :=
  collectViews s s.collectionCount

/-- Function `hiddenOwner(collectionId)`. -/
def hiddenOwner (s : LedgerState) (collectionId : Nat) : Except Err Nat :=
  if (s.collections collectionId).existsFlag = false then .error .InvalidCollection
  else .ok (s.collections collectionId).hiddenOwner

/-- Function `totalCollections()`. -/
def totalCollections (s : LedgerState) : Nat := s.collectionCount

/-- Function `mintedCount(collectionId)`. -/
def mintedCount (s : LedgerState) (collectionId : Nat) : Except Err Nat :=
  if (s.collections collectionId).existsFlag = false then .error .InvalidCollection
  else .ok (s.collections collectionId).minted

/-- Function `ownerOf(tokenId)`. -/
def ownerOf (s : LedgerState) (tokenId : Nat) : Except Err Nat :=
  let owner := s.owners tokenId
  if owner = 0 then .error .InvalidToken else .ok owner

/-- Function `balanceOf(owner)`. -/
def balanceOf (s : LedgerState) (owner : Nat) : Except Err Nat :=
  if owner = 0 then .error .ZeroAddress else .ok (s.balances owner)

/-- Function `tokenCollection(tokenId)`. -/
def tokenCollection (s : LedgerState) (tokenId : Nat) : Except Err Nat :=
  let collectionId := s.tokenToCollection tokenId
  if collectionId = 0 then .error .InvalidToken else .ok collectionId

/-- Function `tokenExists(tokenId)`. -/
def tokenExists (s : LedgerState) (tokenId : Nat) : Bool :=
  s.owners tokenId != 0

/-- One external call to a mutating entry point of the contract, with its
`msg.sender` and, for the FHE-taking operations, the collaborator outcome. -/
inductive Op where
  | create (sender : Nat) (collectionName : String) (maxSupply : Nat) (fheInput : Option Nat)
  | setHidden (sender : Nat) (collectionId : Nat) (fheInput : Option Nat)
  | mintOp (sender : Nat) (collectionId : Nat)
deriving Repr, DecidableEq

/-- The `msg.sender` of an operation. -/
def Op.sender : Op → Nat
  | .create a _ _ _ => a
  | .setHidden a _ _ => a
  | .mintOp a _ => a

/-- A transaction sender on Ethereum is never `address(0)` (it must hold a
signing key), so valid operations carry a nonzero sender. -/
def ValidOp (o : Op) : Prop := o.sender ≠ 0

instance (o : Op) : Decidable (ValidOp o) := by
  unfold ValidOp
  infer_instance

/-- Dispatch an operation to its entry point (the `setHiddenOwner` result is
padded with a dummy `0` return value to share one result type). -/
def execOp (s : LedgerState) : Op → Except Err (Nat × LedgerState)
  | .create sender nm ms fhe => createCollection s sender nm ms fhe
  | .setHidden sender cid fhe => (setHiddenOwner s sender cid fhe).map (fun s' => (0, s'))
  | .mintOp sender cid => mint s sender cid

/-- Caller-level state transition: a successful call installs the new state, a
revert leaves the pre-call state in place. -/
def stepState (s : LedgerState) (o : Op) : LedgerState :=
  match execOp s o with
  | .ok (_, s') => s'
  | .error _ => s

/-- States the deployed contract can actually be in: the initial state and
anything reachable from it by valid external calls. -/
inductive Reachable : LedgerState → Prop where
  | init : Reachable initState
  | step {s : LedgerState} {o : Op} : Reachable s → ValidOp o → Reachable (stepState s o)

/-- Results of `n` successive `mint(collectionId)` calls by one sender, together
with the state after them (a failed call contributes its error and leaves the
state unchanged). -/
def mintSeq (sender collectionId : Nat) : LedgerState → Nat → List (Except Err Nat) × LedgerState
  | s, 0 => ([], s)
  | s, n + 1 =>
    match mint s sender collectionId with
    | .ok (t, s') =>
      let rest := mintSeq sender collectionId s' n
      (.ok t :: rest.1, rest.2)
    | .error e =>
      let rest := mintSeq sender collectionId s n
      (.error e :: rest.1, rest.2)

/-- Run a list of operations from a given state. -/
def runOpsFrom (s : LedgerState) : List Op → LedgerState
  | [] => s
  | o :: rest => runOpsFrom (stepState s o) rest

/-- Run a list of operations from the freshly deployed contract. -/
def runOps (ops : List Op) : LedgerState := runOpsFrom initState ops

/-- Collection ids returned by the successful `createCollection` calls of a
trace, in call order. -/
def createdIds : LedgerState → List Op → List Nat
  | _, [] => []
  | s, o :: rest =>
    match o, execOp s o with
    | .create _ _ _ _, .ok (id, _) => id :: createdIds (stepState s o) rest
    | _, _ => createdIds (stepState s o) rest

/-- Number of successful `mint` calls with `msg.sender = p` in a trace. -/
def mintCountBy (p : Nat) : LedgerState → List Op → Nat
  | _, [] => 0
  | s, o :: rest =>
    match o, execOp s o with
    | .mintOp sender _, .ok _ =>
      (if sender = p then 1 else 0) + mintCountBy p (stepState s o) rest
    | _, _ => mintCountBy p (stepState s o) rest

/-- Number of successful `mint` calls (by any sender) in a trace. -/
def mintCountTotal : LedgerState → List Op → Nat
  | _, [] => 0
  | s, o :: rest =>
    match o, execOp s o with
    | .mintOp _ _, .ok _ => 1 + mintCountTotal (stepState s o) rest
    | _, _ => mintCountTotal (stepState s o) rest

/-- Example state: principal 5 created collection "A" with maxSupply 2
(validated handle 7), so collection 1 reserves token ids 1 and 2. -/
def exState1 : LedgerState := stepState initState (.create 5 "A" 2 (some 7))

/-- Example state: additionally principal 8 minted token 1 of collection 1. -/
def exState2 : LedgerState := stepState exState1 (.mintOp 8 1)

/-- Example trace: one collection of supply 2, then principal 9 mints twice. -/
def exTrace : List Op := [.create 5 "A" 2 (some 7), .mintOp 9 1, .mintOp 9 1]

/-! Projection lemmas for the three success states. -/

@[simp] theorem createResultState_collectionCount (s : LedgerState) (a : Nat) (nm : String) (ms enc : Nat) :
    (createResultState s a nm ms enc).collectionCount = s.collectionCount + 1 := rfl

@[simp] theorem createResultState_nextTokenId (s : LedgerState) (a : Nat) (nm : String) (ms enc : Nat) :
    (createResultState s a nm ms enc).nextTokenId = s.nextTokenId + ms := rfl

@[simp] theorem createResultState_collections (s : LedgerState) (a : Nat) (nm : String) (ms enc i : Nat) :
    (createResultState s a nm ms enc).collections i =
      if i = s.collectionCount + 1 then
        { name := nm, maxSupply := ms, minted := 0, creator := a,
          baseTokenId := s.nextTokenId, hiddenOwner := enc, existsFlag := true }
      else s.collections i := rfl

@[simp] theorem createResultState_tokenToCollection (s : LedgerState) (a : Nat) (nm : String) (ms enc : Nat) :
    (createResultState s a nm ms enc).tokenToCollection = s.tokenToCollection := rfl

@[simp] theorem createResultState_owners (s : LedgerState) (a : Nat) (nm : String) (ms enc : Nat) :
    (createResultState s a nm ms enc).owners = s.owners := rfl

@[simp] theorem createResultState_balances (s : LedgerState) (a : Nat) (nm : String) (ms enc : Nat) :
    (createResultState s a nm ms enc).balances = s.balances := rfl

@[simp] theorem setHiddenResultState_collectionCount (s : LedgerState) (cid enc : Nat) :
    (setHiddenResultState s cid enc).collectionCount = s.collectionCount := rfl

@[simp] theorem setHiddenResultState_nextTokenId (s : LedgerState) (cid enc : Nat) :
    (setHiddenResultState s cid enc).nextTokenId = s.nextTokenId := rfl

@[simp] theorem setHiddenResultState_collections (s : LedgerState) (cid enc i : Nat) :
    (setHiddenResultState s cid enc).collections i =
      if i = cid then { s.collections cid with hiddenOwner := enc }
      else s.collections i := rfl

@[simp] theorem setHiddenResultState_tokenToCollection (s : LedgerState) (cid enc : Nat) :
    (setHiddenResultState s cid enc).tokenToCollection = s.tokenToCollection := rfl

@[simp] theorem setHiddenResultState_owners (s : LedgerState) (cid enc : Nat) :
    (setHiddenResultState s cid enc).owners = s.owners := rfl

@[simp] theorem setHiddenResultState_balances (s : LedgerState) (cid enc : Nat) :
    (setHiddenResultState s cid enc).balances = s.balances := rfl

@[simp] theorem mintResultState_collectionCount (s : LedgerState) (a cid : Nat) :
    (mintResultState s a cid).collectionCount = s.collectionCount := rfl

@[simp] theorem mintResultState_nextTokenId (s : LedgerState) (a cid : Nat) :
    (mintResultState s a cid).nextTokenId = s.nextTokenId := rfl

@[simp] theorem mintResultState_collections (s : LedgerState) (a cid i : Nat) :
    (mintResultState s a cid).collections i =
      if i = cid then
        { s.collections cid with minted := (s.collections cid).minted + 1 }
      else s.collections i := rfl

@[simp] theorem mintResultState_tokenToCollection (s : LedgerState) (a cid t : Nat) :
    (mintResultState s a cid).tokenToCollection t =
      if t = (s.collections cid).baseTokenId + (s.collections cid).minted then cid
      else s.tokenToCollection t := rfl

@[simp] theorem mintResultState_owners (s : LedgerState) (a cid t : Nat) :
    (mintResultState s a cid).owners t =
      if t = (s.collections cid).baseTokenId + (s.collections cid).minted then a
      else s.owners t := rfl

@[simp] theorem mintResultState_balances (s : LedgerState) (a cid p : Nat) :
    (mintResultState s a cid).balances p =
      if p = a then s.balances a + 1 else s.balances p := rfl

/-! Inversion lemmas: what a successful (or failing) call tells us. -/

theorem createCollection_ok_elim {s : LedgerState} {a : Nat} {nm : String} {ms : Nat}
    {fhe : Option Nat} {id : Nat} {s' : LedgerState}
    (h : createCollection s a nm ms fhe = .ok (id, s')) :
    nm.length ≠ 0 ∧ ms ≠ 0 ∧ s.collectionCount + 1 ≤ uintMax ∧
      s.nextTokenId + ms ≤ uintMax ∧ id = s.collectionCount + 1 ∧
      ∃ enc, fhe = some enc ∧ s' = createResultState s a nm ms enc := by
  by_cases h1 : nm.length = 0
  · simp [createCollection, h1] at h
  · by_cases h2 : ms = 0
    · simp [createCollection, h1, h2] at h
    · cases fhe with
      | none => simp [createCollection, h1, h2] at h
      | some enc =>
        by_cases h3 : s.collectionCount + 1 > uintMax
        · simp [createCollection, h1, h2, h3] at h
        · by_cases h4 : s.nextTokenId + ms > uintMax
          · simp [createCollection, h1, h2, h3, h4] at h
          · simp only [createCollection, if_neg h1, if_neg h2, if_neg h3, if_neg h4,
              Except.ok.injEq, Prod.mk.injEq] at h
            exact ⟨h1, h2, by omega, by omega, h.1.symm, enc, rfl, h.2.symm⟩

theorem setHiddenOwner_ok_elim {s : LedgerState} {a cid : Nat} {fhe : Option Nat}
    {s' : LedgerState} (h : setHiddenOwner s a cid fhe = .ok s') :
    (s.collections cid).existsFlag = true ∧ (s.collections cid).creator = a ∧
      ∃ enc, fhe = some enc ∧ s' = setHiddenResultState s cid enc := by
  by_cases h1 : (s.collections cid).existsFlag = false
  · simp [setHiddenOwner, h1] at h
  · by_cases h2 : (s.collections cid).creator = a
    · cases fhe with
      | none => simp [setHiddenOwner, h1, h2] at h
      | some enc =>
        simp only [setHiddenOwner, if_neg h1, h2, ne_eq, not_true_eq_false,
          if_false, ite_false, Except.ok.injEq] at h
        refine ⟨by simpa using h1, h2, enc, rfl, ?_⟩
        simpa using h.symm
    · simp [setHiddenOwner, h1, h2] at h

theorem mint_ok_elim {s : LedgerState} {a cid t : Nat} {s' : LedgerState}
    (h : mint s a cid = .ok (t, s')) :
    (s.collections cid).existsFlag = true ∧
      (s.collections cid).minted < (s.collections cid).maxSupply ∧
      t = (s.collections cid).baseTokenId + (s.collections cid).minted ∧
      s' = mintResultState s a cid := by
  by_cases h1 : (s.collections cid).existsFlag = false
  · simp [mint, h1] at h
  · by_cases h2 : (s.collections cid).minted ≥ (s.collections cid).maxSupply
    · simp [mint, h1, h2] at h
    · by_cases h3 : (s.collections cid).baseTokenId + (s.collections cid).minted > uintMax
      · simp [mint, h1, h2, h3] at h
      · by_cases h4 : (s.collections cid).minted + 1 > uintMax
        · simp [mint, h1, h2, h3, h4] at h
        · by_cases h5 : s.balances a + 1 > uintMax
          · simp [mint, h1, h2, h3, h4, h5] at h
          · simp only [mint, if_neg h1, if_neg h2, if_neg h3, if_neg h4, if_neg h5,
              Except.ok.injEq, Prod.mk.injEq] at h
            exact ⟨by simpa using h1, by omega, h.1.symm, h.2.symm⟩

/-- The `SupplyExhausted` revert happens exactly on an existing collection whose
`minted` has reached `maxSupply` (no hypotheses about reachability needed:
this is a case analysis of the function body). -/
theorem mint_supplyExhausted_iff (s : LedgerState) (a cid : Nat) :
    mint s a cid = .error .SupplyExhausted ↔
      (s.collections cid).existsFlag = true ∧
        (s.collections cid).maxSupply ≤ (s.collections cid).minted := by
  by_cases h1 : (s.collections cid).existsFlag = false
  · simp [mint, h1]
  · by_cases h2 : (s.collections cid).minted ≥ (s.collections cid).maxSupply
    · simp only [mint, if_neg h1, if_pos h2, true_iff]
      exact ⟨by simpa using h1, h2⟩
    · by_cases h3 : (s.collections cid).baseTokenId + (s.collections cid).minted > uintMax
      · simp only [mint, if_neg h1, if_neg h2, if_pos h3]
        constructor
        · intro hc; exact absurd hc (by simp)
        · intro hc; omega
      · by_cases h4 : (s.collections cid).minted + 1 > uintMax
        · simp only [mint, if_neg h1, if_neg h2, if_neg h3, if_pos h4]
          constructor
          · intro hc; exact absurd hc (by simp)
          · intro hc; omega
        · by_cases h5 : s.balances a + 1 > uintMax
          · simp only [mint, if_neg h1, if_neg h2, if_neg h3, if_neg h4, if_pos h5]
            constructor
            · intro hc; exact absurd hc (by simp)
            · intro hc; omega
          · simp only [mint, if_neg h1, if_neg h2, if_neg h3, if_neg h4, if_neg h5]
            constructor
            · intro hc; exact absurd hc (by simp)
            · intro hc; omega

/-! The reachable-state invariant. -/

/-- Sum of a per-collection quantity over the collections created so far
(ids `1.._collectionCount`). -/
def colSum (s : LedgerState) (f : Collection → Nat) : Nat :=
  ∑ i in Finset.range s.collectionCount, f (s.collections (i + 1))

/-- Token `t` has been minted: it lies in the already-consumed prefix of some
existing collection's reserved range. -/
def MintedTok (s : LedgerState) (t : Nat) : Prop :=
  ∃ i, (s.collections i).existsFlag = true ∧
    (s.collections i).baseTokenId ≤ t ∧
    t < (s.collections i).baseTokenId + (s.collections i).minted

/-- Inductive invariant of the contract's storage, preserved by every external
call from the deployed state. -/
structure Inv (s : LedgerState) : Prop where
  next_pos : 1 ≤ s.nextTokenId
  next_le : s.nextTokenId ≤ uintMax
  default_out : ∀ i, i = 0 ∨ s.collectionCount < i → s.collections i = defaultCollection
  exists_in : ∀ i, 1 ≤ i → i ≤ s.collectionCount → (s.collections i).existsFlag = true
  minted_le : ∀ i, (s.collections i).existsFlag = true →
    (s.collections i).minted ≤ (s.collections i).maxSupply
  supply_pos : ∀ i, (s.collections i).existsFlag = true → 0 < (s.collections i).maxSupply
  base_pos : ∀ i, (s.collections i).existsFlag = true → 1 ≤ (s.collections i).baseTokenId
  range_le : ∀ i, (s.collections i).existsFlag = true →
    (s.collections i).baseTokenId + (s.collections i).maxSupply ≤ s.nextTokenId
  ordered : ∀ i j, (s.collections i).existsFlag = true →
    (s.collections j).existsFlag = true → i < j →
    (s.collections i).baseTokenId + (s.collections i).maxSupply ≤ (s.collections j).baseTokenId
  owners_iff : ∀ t, s.owners t ≠ 0 ↔ MintedTok s t
  t2c_in : ∀ i, (s.collections i).existsFlag = true →
    ∀ t, (s.collections i).baseTokenId ≤ t →
      t < (s.collections i).baseTokenId + (s.collections i).minted →
      s.tokenToCollection t = i
  t2c_out : ∀ t, ¬ MintedTok s t → s.tokenToCollection t = 0
  max_sum : colSum s (fun c => c.maxSupply) + 1 = s.nextTokenId
  bal_sum : ∃ T : Finset Nat, 0 ∉ T ∧ (∀ p, p ∉ T → s.balances p = 0) ∧
    (∑ p in T, s.balances p) = colSum s (fun c => c.minted)

theorem inv_init : Inv initState := by
  constructor <;>
    simp [initState, colSum, defaultCollection, MintedTok, uintMax]
  · intro i h1 h2; omega
  · exact ⟨∅, by simp⟩

/-- An existing collection's id lies in `1.._collectionCount`. -/
theorem Inv.exists_bounds {s : LedgerState} (hInv : Inv s) {i : Nat}
    (h : (s.collections i).existsFlag = true) :
    1 ≤ i ∧ i ≤ s.collectionCount := by
  by_contra hc
  have : i = 0 ∨ s.collectionCount < i := by omega
  have := hInv.default_out i this
  rw [this] at h
  simp [defaultCollection] at h

/-- Total minted so far is bounded by total reserved supply. -/
theorem Inv.minted_sum_le (hInv : Inv s) :
    colSum s (fun c => c.minted) ≤ colSum s (fun c => c.maxSupply) := by
  refine Finset.sum_le_sum ?_
  intro i hi
  simp only [Finset.mem_range] at hi
  exact hInv.minted_le (i + 1) (hInv.exists_in (i + 1) (by omega) (by omega))

/-- Any single balance is bounded by the total minted count. -/
theorem Inv.balance_le (hInv : Inv s) (p : Nat) :
    s.balances p ≤ colSum s (fun c => c.minted) := by
  obtain ⟨T, _, hout, hsum⟩ := hInv.bal_sum
  by_cases hp : p ∈ T
  · calc s.balances p ≤ ∑ q in T, s.balances q :=
          Finset.single_le_sum (fun q _ => Nat.zero_le _) hp
      _ = _ := hsum
  · simp [hout p hp]

/-- Two distinct existing collections have disjoint reserved ranges. -/
theorem Inv.ranges_disjoint (hInv : Inv s) {i j t : Nat}
    (hi : (s.collections i).existsFlag = true)
    (hj : (s.collections j).existsFlag = true) (hij : i ≠ j)
    (hti : (s.collections i).baseTokenId ≤ t)
    (hti' : t < (s.collections i).baseTokenId + (s.collections i).maxSupply)
    (htj : (s.collections j).baseTokenId ≤ t)
    (htj' : t < (s.collections j).baseTokenId + (s.collections j).maxSupply) : False := by
  rcases Nat.lt_or_ge i j with h | h
  · have := hInv.ordered i j hi hj h
    omega
  · have hji : j < i := by omega
    have := hInv.ordered j i hj hi hji
    omega

/-- On an invariant state, a fresh existing collection slot with remaining
supply mints successfully: none of the checked additions can overflow. -/
theorem mint_ok_of (hInv : Inv s) (a cid : Nat)
    (hex : (s.collections cid).existsFlag = true)
    (hlt : (s.collections cid).minted < (s.collections cid).maxSupply) :
    mint s a cid =
      .ok ((s.collections cid).baseTokenId + (s.collections cid).minted,
           mintResultState s a cid) := by
  have hrange := hInv.range_le cid hex
  have hnext := hInv.next_le
  have hbase := hInv.base_pos cid hex
  have hbal : s.balances a + 1 ≤ uintMax := by
    have h1 := hInv.balance_le a
    have h2 := hInv.minted_sum_le
    have h3 := hInv.max_sum
    omega
  have h1 : ¬ (s.collections cid).existsFlag = false := by simp [hex]
  have h2 : ¬ (s.collections cid).minted ≥ (s.collections cid).maxSupply := by omega
  have h3 : ¬ (s.collections cid).baseTokenId + (s.collections cid).minted > uintMax := by
    omega
  have h4 : ¬ (s.collections cid).minted + 1 > uintMax := by omega
  have h5 : ¬ s.balances a + 1 > uintMax := by omega
  simp only [mint, if_neg h1, if_neg h2, if_neg h3, if_neg h4, if_neg h5]

theorem inv_setHidden {s s' : LedgerState} {a cid : Nat} {fhe : Option Nat} (hInv : Inv s)
    (h : setHiddenOwner s a cid fhe = .ok s') : Inv s' := by
  obtain ⟨hex, hcr, enc, hfhe, rfl⟩ := setHiddenOwner_ok_elim h
  obtain ⟨hc1, hc2⟩ := hInv.exists_bounds hex
  have hexp : ∀ i, ((setHiddenResultState s cid enc).collections i).existsFlag =
      (s.collections i).existsFlag := by
    intro i; by_cases hi : i = cid <;> simp [hi]
  have hmin : ∀ i, ((setHiddenResultState s cid enc).collections i).minted =
      (s.collections i).minted := by
    intro i; by_cases hi : i = cid <;> simp [hi]
  have hmax : ∀ i, ((setHiddenResultState s cid enc).collections i).maxSupply =
      (s.collections i).maxSupply := by
    intro i; by_cases hi : i = cid <;> simp [hi]
  have hbase : ∀ i, ((setHiddenResultState s cid enc).collections i).baseTokenId =
      (s.collections i).baseTokenId := by
    intro i; by_cases hi : i = cid <;> simp [hi]
  have hmtok : ∀ t, MintedTok (setHiddenResultState s cid enc) t ↔ MintedTok s t := by
    intro t
    unfold MintedTok
    constructor
    · rintro ⟨i, hie, hb, hm⟩
      rw [hexp i] at hie; rw [hbase i] at hb; rw [hbase i, hmin i] at hm
      exact ⟨i, hie, hb, hm⟩
    · rintro ⟨i, hie, hb, hm⟩
      refine ⟨i, ?_, ?_, ?_⟩
      · rw [hexp i]; exact hie
      · rw [hbase i]; exact hb
      · rw [hbase i, hmin i]; exact hm
  have hsum_min : colSum (setHiddenResultState s cid enc) (fun c => c.minted) =
      colSum s (fun c => c.minted) := by
    unfold colSum
    rw [setHiddenResultState_collectionCount]
    exact Finset.sum_congr rfl (fun i _ => by simpa using hmin (i + 1))
  have hsum_max : colSum (setHiddenResultState s cid enc) (fun c => c.maxSupply) =
      colSum s (fun c => c.maxSupply) := by
    unfold colSum
    rw [setHiddenResultState_collectionCount]
    exact Finset.sum_congr rfl (fun i _ => by simpa using hmax (i + 1))
  constructor
  · simpa using hInv.next_pos
  · simpa using hInv.next_le
  · intro i hi
    simp only [setHiddenResultState_collectionCount] at hi
    have hne : i ≠ cid := by omega
    simp only [setHiddenResultState_collections, if_neg hne]
    exact hInv.default_out i hi
  · intro i h1 h2
    simp only [setHiddenResultState_collectionCount] at h2
    rw [hexp i]
    exact hInv.exists_in i h1 h2
  · intro i hie
    rw [hmin i, hmax i]
    exact hInv.minted_le i (by rw [hexp i] at hie; exact hie)
  · intro i hie
    rw [hmax i]
    exact hInv.supply_pos i (by rw [hexp i] at hie; exact hie)
  · intro i hie
    rw [hbase i]
    exact hInv.base_pos i (by rw [hexp i] at hie; exact hie)
  · intro i hie
    rw [hbase i, hmax i, setHiddenResultState_nextTokenId]
    exact hInv.range_le i (by rw [hexp i] at hie; exact hie)
  · intro i j hie hje hij
    rw [hbase i, hmax i, hbase j]
    exact hInv.ordered i j (by rw [hexp i] at hie; exact hie)
      (by rw [hexp j] at hje; exact hje) hij
  · intro t
    rw [setHiddenResultState_owners, hmtok t]
    exact hInv.owners_iff t
  · intro i hie t hb hm
    rw [setHiddenResultState_tokenToCollection]
    rw [hexp i] at hie; rw [hbase i] at hb; rw [hbase i, hmin i] at hm
    exact hInv.t2c_in i hie t hb hm
  · intro t ht
    rw [setHiddenResultState_tokenToCollection]
    exact hInv.t2c_out t (by rw [hmtok t] at ht; exact ht)
  · rw [hsum_max, setHiddenResultState_nextTokenId]
    exact hInv.max_sum
  · obtain ⟨T, h0, hout, hs⟩ := hInv.bal_sum
    refine ⟨T, h0, ?_, ?_⟩
    · intro p hp
      rw [setHiddenResultState_balances]
      exact hout p hp
    · rw [setHiddenResultState_balances, hsum_min]
      exact hs

theorem inv_create {s s' : LedgerState} {a : Nat} {nm : String} {ms : Nat}
    {fhe : Option Nat} {id : Nat} (hInv : Inv s)
    (h : createCollection s a nm ms fhe = .ok (id, s')) : Inv s' := by
  obtain ⟨hnm, hms, hcnt, hnext, hid, enc, hfhe, rfl⟩ := createCollection_ok_elim h
  set k := s.collectionCount + 1 with hk
  have hold_k : s.collections k = defaultCollection := hInv.default_out k (by omega)
  have hexp : ∀ i, i ≠ k →
      (createResultState s a nm ms enc).collections i = s.collections i := by
    intro i hi
    simp only [createResultState_collections, if_neg hi]
  have hnewrec : (createResultState s a nm ms enc).collections k =
      { name := nm, maxSupply := ms, minted := 0, creator := a,
        baseTokenId := s.nextTokenId, hiddenOwner := enc, existsFlag := true } := by
    simp
  have hold_exists : ∀ i, (s.collections i).existsFlag = true → i ≠ k := by
    intro i hie
    have := (hInv.exists_bounds hie).2
    omega
  have hmtok : ∀ t, MintedTok (createResultState s a nm ms enc) t ↔ MintedTok s t := by
    intro t
    unfold MintedTok
    constructor
    · rintro ⟨i, hie, hb, hm⟩
      by_cases hi : i = k
      · subst hi
        rw [hnewrec] at hb hm
        simp at hb hm
        omega
      · rw [hexp i hi] at hie hb hm
        exact ⟨i, hie, hb, hm⟩
    · rintro ⟨i, hie, hb, hm⟩
      have hi := hold_exists i hie
      refine ⟨i, ?_, ?_, ?_⟩ <;> rw [hexp i hi] <;> assumption
  have hsum : ∀ f : Collection → Nat,
      colSum (createResultState s a nm ms enc) f =
        colSum s f + f ((createResultState s a nm ms enc).collections k) := by
    intro f
    unfold colSum
    rw [createResultState_collectionCount, Finset.sum_range_succ]
    congr 1
    refine Finset.sum_congr rfl (fun i hi => ?_)
    simp only [Finset.mem_range] at hi
    rw [hexp (i + 1) (by omega)]
  constructor
  · simp only [createResultState_nextTokenId]
    have := hInv.next_pos
    omega
  · simpa using hnext
  · intro i hi
    simp only [createResultState_collectionCount] at hi
    have hne : i ≠ k := by omega
    rw [hexp i hne]
    exact hInv.default_out i (by omega)
  · intro i h1 h2
    simp only [createResultState_collectionCount] at h2
    by_cases hi : i = k
    · subst hi; rw [hnewrec]
    · rw [hexp i hi]
      exact hInv.exists_in i h1 (by omega)
  · intro i hie
    by_cases hi : i = k
    · subst hi; rw [hnewrec]; simp
    · rw [hexp i hi] at hie ⊢
      exact hInv.minted_le i hie
  · intro i hie
    by_cases hi : i = k
    · subst hi; rw [hnewrec]; simpa using Nat.pos_of_ne_zero hms
    · rw [hexp i hi] at hie ⊢
      exact hInv.supply_pos i hie
  · intro i hie
    by_cases hi : i = k
    · subst hi; rw [hnewrec]; simpa using hInv.next_pos
    · rw [hexp i hi] at hie ⊢
      exact hInv.base_pos i hie
  · intro i hie
    simp only [createResultState_nextTokenId]
    by_cases hi : i = k
    · subst hi; rw [hnewrec]
    · rw [hexp i hi] at hie ⊢
      have := hInv.range_le i hie
      omega
  · intro i j hie hje hij
    by_cases hj : j = k
    · subst hj
      have hi : i ≠ k := by omega
      rw [hexp i hi] at hie ⊢
      rw [hnewrec]
      exact hInv.range_le i hie
    · rw [hexp j hj] at hje
      have hj2 := (hInv.exists_bounds hje).2
      have hi : i ≠ k := by omega
      rw [hexp i hi] at hie ⊢
      rw [hexp j hj]
      exact hInv.ordered i j hie hje hij
  · intro t
    rw [createResultState_owners, hmtok t]
    exact hInv.owners_iff t
  · intro i hie t hb hm
    rw [createResultState_tokenToCollection]
    by_cases hi : i = k
    · subst hi
      rw [hnewrec] at hb hm
      simp at hb hm
      omega
    · rw [hexp i hi] at hie hb hm
      exact hInv.t2c_in i hie t hb hm
  · intro t ht
    rw [createResultState_tokenToCollection]
    exact hInv.t2c_out t (by rw [hmtok t] at ht; exact ht)
  · rw [hsum, hnewrec]
    show colSum s (fun c => c.maxSupply) + ms + 1 = (createResultState s a nm ms enc).nextTokenId
    simp only [createResultState_nextTokenId]
    have := hInv.max_sum
    omega
  · obtain ⟨T, h0, hout, hs⟩ := hInv.bal_sum
    refine ⟨T, h0, ?_, ?_⟩
    · intro p hp
      rw [createResultState_balances]
      exact hout p hp
    · rw [createResultState_balances, hsum, hnewrec]
      simpa using hs

/-- A non-existing slot of an invariant state is the zero record. -/
theorem Inv.default_of_not_exists {s : LedgerState} (hInv : Inv s) {i : Nat}
    (h : (s.collections i).existsFlag = false) : s.collections i = defaultCollection := by
  rcases Decidable.em (1 ≤ i ∧ i ≤ s.collectionCount) with hin | hout
  · rw [hInv.exists_in i hin.1 hin.2] at h
    cases h
  · exact hInv.default_out i (by omega)

/-- Minting does not change the total reserved supply. -/
theorem colSum_maxSupply_mintResult (s : LedgerState) (a cid : Nat) :
    colSum (mintResultState s a cid) (fun c => c.maxSupply) =
      colSum s (fun c => c.maxSupply) := by
  unfold colSum
  rw [mintResultState_collectionCount]
  refine Finset.sum_congr rfl (fun i _ => ?_)
  by_cases hi : i + 1 = cid
  · rw [hi]; simp
  · simp only [mintResultState_collections, if_neg hi]

/-- Minting an existing collection raises the total minted count by one. -/
theorem colSum_minted_mintResult {s : LedgerState} (hInv : Inv s) (a : Nat) {cid : Nat}
    (hex : (s.collections cid).existsFlag = true) :
    colSum (mintResultState s a cid) (fun c => c.minted) =
      colSum s (fun c => c.minted) + 1 := by
  obtain ⟨hc1, hc2⟩ := hInv.exists_bounds hex
  unfold colSum
  rw [mintResultState_collectionCount]
  have hpt : ∀ i, (fun c => c.minted) ((mintResultState s a cid).collections (i + 1)) =
      (fun c => c.minted) (s.collections (i + 1)) + (if i = cid - 1 then 1 else 0) := by
    intro i
    by_cases hi : i + 1 = cid
    · rw [hi, if_pos (by omega)]
      simp
    · rw [if_neg (by omega)]
      simp only [mintResultState_collections, if_neg hi]
      simp
  calc (∑ i in Finset.range s.collectionCount,
          (fun c => c.minted) ((mintResultState s a cid).collections (i + 1)))
      = ∑ i in Finset.range s.collectionCount,
          ((fun c => c.minted) (s.collections (i + 1)) + (if i = cid - 1 then 1 else 0)) :=
        Finset.sum_congr rfl (fun i _ => hpt i)
    _ = (∑ i in Finset.range s.collectionCount,
          (fun c => c.minted) (s.collections (i + 1))) +
        (∑ i in Finset.range s.collectionCount, (if i = cid - 1 then 1 else 0)) :=
        Finset.sum_add_distrib
    _ = colSum s (fun c => c.minted) + 1 := by
        rw [Finset.sum_ite_eq' (Finset.range s.collectionCount) (cid - 1) (fun _ => 1)]
        rw [if_pos (Finset.mem_range.mpr (by omega))]
        rfl

/-- Creating a collection leaves every per-collection sum over the old
collections intact and appends the new record. -/
theorem colSum_createResult (s : LedgerState) (a : Nat) (nm : String) (ms enc : Nat)
    (f : Collection → Nat) :
    colSum (createResultState s a nm ms enc) f =
      colSum s f + f ((createResultState s a nm ms enc).collections (s.collectionCount + 1)) := by
  unfold colSum
  rw [createResultState_collectionCount, Finset.sum_range_succ]
  congr 1
  refine Finset.sum_congr rfl (fun i hi => ?_)
  simp only [Finset.mem_range] at hi
  simp only [createResultState_collections, if_neg (by omega : ¬ i + 1 = s.collectionCount + 1)]

/-- Replacing a hidden-owner handle changes no per-collection count. -/
theorem colSum_setHiddenResult (s : LedgerState) (cid enc : Nat) (f : Collection → Nat)
    (hf : ∀ c h, f { c with hiddenOwner := h } = f c) :
    colSum (setHiddenResultState s cid enc) f = colSum s f := by
  unfold colSum
  rw [setHiddenResultState_collectionCount]
  refine Finset.sum_congr rfl (fun i _ => ?_)
  by_cases hi : i + 1 = cid
  · simp only [setHiddenResultState_collections, if_pos hi, hf]
    rw [hi]
  · simp only [setHiddenResultState_collections, if_neg hi]

theorem inv_mint {s s' : LedgerState} {a cid t : Nat} (hInv : Inv s) (ha : a ≠ 0)
    (h : mint s a cid = .ok (t, s')) : Inv s' := by
  obtain ⟨hex, hlt, ht, rfl⟩ := mint_ok_elim h
  obtain ⟨hc1, hc2⟩ := hInv.exists_bounds hex
  set t0 := (s.collections cid).baseTokenId + (s.collections cid).minted with ht0
  have hexp : ∀ i, i ≠ cid →
      (mintResultState s a cid).collections i = s.collections i := by
    intro i hi
    simp only [mintResultState_collections, if_neg hi]
  have hnew_minted : ((mintResultState s a cid).collections cid).minted =
      (s.collections cid).minted + 1 := by simp
  have hnew_base : ((mintResultState s a cid).collections cid).baseTokenId =
      (s.collections cid).baseTokenId := by simp
  have hnew_max : ((mintResultState s a cid).collections cid).maxSupply =
      (s.collections cid).maxSupply := by simp
  have hnew_exists : ((mintResultState s a cid).collections cid).existsFlag =
      (s.collections cid).existsFlag := by simp
  have ht0_unminted : ¬ MintedTok s t0 := by
    rintro ⟨j, hje, hjb, hjm⟩
    by_cases hj : j = cid
    · rw [hj] at hjm; omega
    · have hjml := hInv.minted_le j hje
      exact hInv.ranges_disjoint hje hex hj hjb (by omega) (by omega) (by omega)
  have howners0 : s.owners t0 = 0 := by
    by_contra hc
    exact ht0_unminted ((hInv.owners_iff t0).mp hc)
  have ht2c0 : s.tokenToCollection t0 = 0 := hInv.t2c_out t0 ht0_unminted
  have hmtok : ∀ u, MintedTok (mintResultState s a cid) u ↔ MintedTok s u ∨ u = t0 := by
    intro u
    unfold MintedTok
    constructor
    · rintro ⟨i, hie, hb, hm⟩
      by_cases hi : i = cid
      · rw [hi] at hb hm
        rw [hnew_base] at hb
        rw [hnew_base, hnew_minted] at hm
        by_cases hu : u = t0
        · exact Or.inr hu
        · exact Or.inl ⟨cid, hex, hb, by omega⟩
      · rw [hexp i hi] at hie hb hm
        exact Or.inl ⟨i, hie, hb, hm⟩
    · rintro (⟨i, hie, hb, hm⟩ | hu)
      · by_cases hi : i = cid
        · rw [hi] at hie hb hm
          refine ⟨cid, ?_, ?_, ?_⟩
          · rw [hnew_exists]; exact hex
          · rw [hnew_base]; exact hb
          · rw [hnew_base, hnew_minted]; omega
        · refine ⟨i, ?_, ?_, ?_⟩ <;> rw [hexp i hi] <;> assumption
      · refine ⟨cid, ?_, ?_, ?_⟩
        · rw [hnew_exists]; exact hex
        · rw [hnew_base]; omega
        · rw [hnew_base, hnew_minted]; omega
  have hsum_max : colSum (mintResultState s a cid) (fun c => c.maxSupply) =
      colSum s (fun c => c.maxSupply) := by
    unfold colSum
    rw [mintResultState_collectionCount]
    refine Finset.sum_congr rfl (fun i _ => ?_)
    by_cases hi : i + 1 = cid
    · rw [hi]; simp
    · rw [hexp (i + 1) hi]
  have hsum_min : colSum (mintResultState s a cid) (fun c => c.minted) =
      colSum s (fun c => c.minted) + 1 := colSum_minted_mintResult hInv a hex
  constructor
  · simpa using hInv.next_pos
  · simpa using hInv.next_le
  · intro i hi
    simp only [mintResultState_collectionCount] at hi
    have hne : i ≠ cid := by omega
    rw [hexp i hne]
    exact hInv.default_out i hi
  · intro i h1 h2
    simp only [mintResultState_collectionCount] at h2
    by_cases hi : i = cid
    · rw [hi, hnew_exists]; exact hex
    · rw [hexp i hi]; exact hInv.exists_in i h1 h2
  · intro i hie
    by_cases hi : i = cid
    · rw [hi, hnew_minted, hnew_max]; omega
    · rw [hexp i hi] at hie ⊢; exact hInv.minted_le i hie
  · intro i hie
    by_cases hi : i = cid
    · rw [hi, hnew_max]; exact hInv.supply_pos cid hex
    · rw [hexp i hi] at hie ⊢; exact hInv.supply_pos i hie
  · intro i hie
    by_cases hi : i = cid
    · rw [hi, hnew_base]; exact hInv.base_pos cid hex
    · rw [hexp i hi] at hie ⊢; exact hInv.base_pos i hie
  · intro i hie
    simp only [mintResultState_nextTokenId]
    by_cases hi : i = cid
    · rw [hi, hnew_base, hnew_max]; exact hInv.range_le cid hex
    · rw [hexp i hi] at hie ⊢; exact hInv.range_le i hie
  · intro i j hie hje hij
    have hie' : (s.collections i).existsFlag = true := by
      by_cases hi : i = cid
      · rw [hi]; exact hex
      · rw [hexp i hi] at hie; exact hie
    have hje' : (s.collections j).existsFlag = true := by
      by_cases hj : j = cid
      · rw [hj]; exact hex
      · rw [hexp j hj] at hje; exact hje
    have hbi : ((mintResultState s a cid).collections i).baseTokenId =
        (s.collections i).baseTokenId := by
      by_cases hi : i = cid
      · rw [hi]; exact hnew_base
      · rw [hexp i hi]
    have hmi : ((mintResultState s a cid).collections i).maxSupply =
        (s.collections i).maxSupply := by
      by_cases hi : i = cid
      · rw [hi]; exact hnew_max
      · rw [hexp i hi]
    have hbj : ((mintResultState s a cid).collections j).baseTokenId =
        (s.collections j).baseTokenId := by
      by_cases hj : j = cid
      · rw [hj]; exact hnew_base
      · rw [hexp j hj]
    rw [hbi, hmi, hbj]
    exact hInv.ordered i j hie' hje' hij
  · intro u
    rw [mintResultState_owners, hmtok u]
    by_cases hu : u = t0
    · rw [if_pos (by omega)]
      constructor
      · intro _; exact Or.inr hu
      · intro _; exact ha
    · rw [if_neg (by omega)]
      constructor
      · intro hne; exact Or.inl ((hInv.owners_iff u).mp hne)
      · rintro (hm | hcon)
        · exact (hInv.owners_iff u).mpr hm
        · exact absurd hcon hu
  · intro i hie u hb hm
    rw [mintResultState_tokenToCollection]
    by_cases hi : i = cid
    · rw [hi] at hb hm
      rw [hnew_base] at hb
      rw [hnew_base, hnew_minted] at hm
      by_cases hu : u = t0
      · rw [if_pos (by omega), hi]
      · rw [if_neg (by omega)]
        rw [hi]
        exact hInv.t2c_in cid hex u hb (by omega)
    · rw [hexp i hi] at hie hb hm
      have hu : u ≠ t0 := by
        intro hu
        rw [hu] at hb hm
        exact ht0_unminted ⟨i, hie, hb, hm⟩
      rw [if_neg (by omega)]
      exact hInv.t2c_in i hie u hb hm
  · intro u hu
    rw [hmtok u] at hu
    push_neg at hu
    obtain ⟨hu1, hu2⟩ := hu
    rw [mintResultState_tokenToCollection, if_neg (by omega)]
    exact hInv.t2c_out u hu1
  · rw [hsum_max]
    simp only [mintResultState_nextTokenId]
    exact hInv.max_sum
  · obtain ⟨T, h0, hout, hs⟩ := hInv.bal_sum
    refine ⟨insert a T, ?_, ?_, ?_⟩
    · simp only [Finset.mem_insert]
      push_neg
      exact ⟨fun hc => ha hc.symm, h0⟩
    · intro p hp
      simp only [Finset.mem_insert] at hp
      push_neg at hp
      rw [mintResultState_balances, if_neg hp.1]
      exact hout p hp.2
    · have hins : ∑ p in insert a T, s.balances p = ∑ p in T, s.balances p := by
        by_cases haT : a ∈ T
        · rw [Finset.insert_eq_self.mpr haT]
        · rw [Finset.sum_insert haT, hout a haT, Nat.zero_add]
      have hfun : ∀ p, (mintResultState s a cid).balances p =
          s.balances p + (if p = a then 1 else 0) := by
        intro p
        rw [mintResultState_balances]
        by_cases hp : p = a
        · rw [if_pos hp, if_pos hp, hp]
        · rw [if_neg hp, if_neg hp]
          simp
      calc (∑ p in insert a T, (mintResultState s a cid).balances p)
          = ∑ p in insert a T, (s.balances p + (if p = a then 1 else 0)) :=
            Finset.sum_congr rfl (fun p _ => hfun p)
        _ = (∑ p in insert a T, s.balances p) +
            (∑ p in insert a T, (if p = a then 1 else 0)) := Finset.sum_add_distrib
        _ = (∑ p in T, s.balances p) + 1 := by
            rw [hins, Finset.sum_ite_eq' (insert a T) a (fun _ => 1),
              if_pos (Finset.mem_insert_self a T)]
        _ = colSum (mintResultState s a cid) (fun c => c.minted) := by
            rw [hs, hsum_min]

/-- Single-step invariant preservation: any external call (valid sender) takes
an invariant state to an invariant state. -/
theorem inv_step {s : LedgerState} {o : Op} (hInv : Inv s) (hv : ValidOp o) :
    Inv (stepState s o) := by
  unfold stepState
  cases o with
  | create sender nm ms fhe =>
    cases hc : execOp s (.create sender nm ms fhe) with
    | ok r =>
      obtain ⟨id, s'⟩ := r
      exact inv_create hInv (by simpa [execOp] using hc)
    | error e => exact hInv
  | setHidden sender cid fhe =>
    cases hc : execOp s (.setHidden sender cid fhe) with
    | ok r =>
      obtain ⟨id, s'⟩ := r
      have : ∃ s0, setHiddenOwner s sender cid fhe = .ok s0 ∧ s0 = s' := by
        simp only [execOp, Except.map] at hc
        cases hsh : setHiddenOwner s sender cid fhe with
        | ok s0 => rw [hsh] at hc; simp at hc; exact ⟨s0, rfl, hc.2⟩
        | error e => rw [hsh] at hc; simp at hc
      obtain ⟨s0, hs0, rfl⟩ := this
      exact inv_setHidden hInv hs0
    | error e => exact hInv
  | mintOp sender cid =>
    cases hc : execOp s (.mintOp sender cid) with
    | ok r =>
      obtain ⟨id, s'⟩ := r
      exact inv_mint hInv hv (by simpa [execOp] using hc)
    | error e => exact hInv

/-- Every reachable contract state satisfies the invariant. -/
theorem reachable_inv {s : LedgerState} (h : Reachable s) : Inv s := by
  induction h with
  | init => exact inv_init
  | step hr hv ih => exact inv_step ih hv

/-! Small-step bookkeeping lemmas used by the trace-level theorems. -/

@[simp] theorem execOp_create (s : LedgerState) (a : Nat) (nm : String) (ms : Nat)
    (fhe : Option Nat) :
    execOp s (.create a nm ms fhe) = createCollection s a nm ms fhe := rfl

@[simp] theorem execOp_mintOp (s : LedgerState) (a cid : Nat) :
    execOp s (.mintOp a cid) = mint s a cid := rfl

@[simp] theorem runOpsFrom_nil (s : LedgerState) : runOpsFrom s [] = s := rfl

@[simp] theorem runOpsFrom_cons (s : LedgerState) (o : Op) (ops : List Op) :
    runOpsFrom s (o :: ops) = runOpsFrom (stepState s o) ops := rfl

theorem stepState_of_error {s : LedgerState} {o : Op} {e : Err}
    (h : execOp s o = .error e) : stepState s o = s := by
  unfold stepState
  rw [h]

theorem stepState_of_ok {s : LedgerState} {o : Op} {r : Nat × LedgerState}
    (h : execOp s o = .ok r) : stepState s o = r.2 := by
  unfold stepState
  rw [h]

theorem execOp_setHidden_ok {s : LedgerState} {a cid : Nat} {fhe : Option Nat}
    {r : Nat × LedgerState} (h : execOp s (.setHidden a cid fhe) = .ok r) :
    ∃ s0, setHiddenOwner s a cid fhe = .ok s0 ∧ r = (0, s0) := by
  simp only [execOp, Except.map] at h
  cases hsh : setHiddenOwner s a cid fhe with
  | ok s0 =>
    rw [hsh] at h
    simp only [Except.ok.injEq] at h
    exact ⟨s0, rfl, h.symm⟩
  | error e =>
    rw [hsh] at h
    simp at h

/-- One step never decreases the collection counter. -/
theorem count_step_le (s : LedgerState) (o : Op) :
    s.collectionCount ≤ (stepState s o).collectionCount := by
  cases hr : execOp s o with
  | error e => rw [stepState_of_error hr]
  | ok r =>
    rw [stepState_of_ok hr]
    cases o with
    | create a nm ms fhe =>
      obtain ⟨id, s'⟩ := r
      obtain ⟨-, -, -, -, -, enc, -, rfl⟩ :=
        createCollection_ok_elim (by simpa using hr)
      simp
    | setHidden a cid fhe =>
      obtain ⟨s0, hs0, rfl⟩ := execOp_setHidden_ok hr
      obtain ⟨-, -, enc, -, rfl⟩ := setHiddenOwner_ok_elim hs0
      simp
    | mintOp a cid =>
      obtain ⟨t, s'⟩ := r
      obtain ⟨-, -, -, rfl⟩ := mint_ok_elim (by simpa using hr)
      simp

/-- The counter never decreases along a trace. -/
theorem count_runOpsFrom_le (ops : List Op) : ∀ s : LedgerState,
    s.collectionCount ≤ (runOpsFrom s ops).collectionCount := by
  induction ops with
  | nil => intro s; simp
  | cons o rest ih =>
    intro s
    calc s.collectionCount ≤ (stepState s o).collectionCount := count_step_le s o
      _ ≤ _ := ih (stepState s o)

theorem createdIds_cons_create_ok {s : LedgerState} {a : Nat} {nm : String} {ms : Nat}
    {fhe : Option Nat} {id : Nat} {s' : LedgerState}
    (h : createCollection s a nm ms fhe = .ok (id, s')) (rest : List Op) :
    createdIds s (.create a nm ms fhe :: rest) =
      id :: createdIds (stepState s (.create a nm ms fhe)) rest := by
  unfold createdIds
  simp only [execOp_create, h]
  rw [← createdIds.eq_def]

theorem createdIds_cons_create_error {s : LedgerState} {a : Nat} {nm : String} {ms : Nat}
    {fhe : Option Nat} {e : Err}
    (h : createCollection s a nm ms fhe = .error e) (rest : List Op) :
    createdIds s (.create a nm ms fhe :: rest) =
      createdIds (stepState s (.create a nm ms fhe)) rest := by
  unfold createdIds
  simp only [execOp_create, h]
  rw [← createdIds.eq_def]

theorem createdIds_cons_setHidden (s : LedgerState) (a cid : Nat) (fhe : Option Nat)
    (rest : List Op) :
    createdIds s (.setHidden a cid fhe :: rest) =
      createdIds (stepState s (.setHidden a cid fhe)) rest := by
  unfold createdIds
  cases h : execOp s (.setHidden a cid fhe) <;> simp <;> rw [← createdIds.eq_def]

theorem createdIds_cons_mintOp (s : LedgerState) (a cid : Nat) (rest : List Op) :
    createdIds s (.mintOp a cid :: rest) =
      createdIds (stepState s (.mintOp a cid)) rest := by
  unfold createdIds
  cases h : execOp s (.mintOp a cid) <;> simp <;> rw [← createdIds.eq_def]

theorem reachable_exState1 : Reachable exState1 :=
  Reachable.step Reachable.init (show (5 : Nat) ≠ 0 by decide)

theorem reachable_exState2 : Reachable exState2 :=
  Reachable.step reachable_exState1 (show (8 : Nat) ≠ 0 by decide)

/-- The ids handed out by the successful creations of a trace are exactly the
consecutive integers following the starting state's counter. -/
theorem createdIds_spec (ops : List Op) : ∀ s : LedgerState,
    createdIds s ops = List.range' (s.collectionCount + 1)
      ((runOpsFrom s ops).collectionCount - s.collectionCount) := by
  induction ops with
  | nil => intro s; simp [createdIds]
  | cons o rest ih =>
    intro s
    have hmono := count_runOpsFrom_le rest (stepState s o)
    cases o with
    | create a nm ms fhe =>
      cases hc : createCollection s a nm ms fhe with
      | ok r =>
        obtain ⟨id, s'⟩ := r
        have hstep : stepState s (.create a nm ms fhe) = s' :=
          stepState_of_ok (by simpa using hc)
        obtain ⟨-, -, -, -, hid, enc, -, hs'⟩ := createCollection_ok_elim hc
        have hcount : s'.collectionCount = s.collectionCount + 1 := by
          rw [hs']; simp
        rw [createdIds_cons_create_ok hc rest, ih (stepState s (.create a nm ms fhe)),
          runOpsFrom_cons, hstep, hcount]
        rw [hstep] at hmono
        rw [hcount] at hmono
        rw [show (runOpsFrom s' rest).collectionCount - s.collectionCount =
          ((runOpsFrom s' rest).collectionCount - (s.collectionCount + 1)) + 1 from by omega]
        rw [List.range'_succ]
        rw [hid]
      | error e =>
        have hstep : stepState s (.create a nm ms fhe) = s :=
          stepState_of_error (by simpa using hc)
        rw [createdIds_cons_create_error hc rest, ih (stepState s (.create a nm ms fhe)),
          runOpsFrom_cons, hstep]
    | setHidden a cid fhe =>
      have hcount : (stepState s (.setHidden a cid fhe)).collectionCount =
          s.collectionCount := by
        cases hc : execOp s (.setHidden a cid fhe) with
        | ok r =>
          obtain ⟨s0, hs0, rfl⟩ := execOp_setHidden_ok hc
          obtain ⟨-, -, enc, -, rfl⟩ := setHiddenOwner_ok_elim hs0
          rw [stepState_of_ok hc]
          simp
        | error e => rw [stepState_of_error hc]
      rw [createdIds_cons_setHidden, ih (stepState s (.setHidden a cid fhe)),
        runOpsFrom_cons, hcount]
    | mintOp a cid =>
      have hcount : (stepState s (.mintOp a cid)).collectionCount =
          s.collectionCount := by
        cases hc : execOp s (.mintOp a cid) with
        | ok r =>
          obtain ⟨t, s'⟩ := r
          obtain ⟨-, -, -, rfl⟩ := mint_ok_elim (by simpa using hc)
          rw [stepState_of_ok hc]
          simp
        | error e => rw [stepState_of_error hc]
      rw [createdIds_cons_mintOp, ih (stepState s (.mintOp a cid)),
        runOpsFrom_cons, hcount]

theorem mintCountBy_cons_mint_ok (p : Nat) {s : LedgerState} {a cid : Nat}
    {r : Nat × LedgerState} (h : mint s a cid = .ok r) (rest : List Op) :
    mintCountBy p s (.mintOp a cid :: rest) =
      (if a = p then 1 else 0) + mintCountBy p (stepState s (.mintOp a cid)) rest := by
  unfold mintCountBy
  simp only [execOp_mintOp, h]
  rw [← mintCountBy.eq_def]

theorem mintCountBy_cons_mint_error (p : Nat) {s : LedgerState} {a cid : Nat}
    {e : Err} (h : mint s a cid = .error e) (rest : List Op) :
    mintCountBy p s (.mintOp a cid :: rest) =
      mintCountBy p (stepState s (.mintOp a cid)) rest := by
  unfold mintCountBy
  simp only [execOp_mintOp, h]
  rw [← mintCountBy.eq_def]

theorem mintCountBy_cons_create (p : Nat) (s : LedgerState) (a : Nat) (nm : String)
    (ms : Nat) (fhe : Option Nat) (rest : List Op) :
    mintCountBy p s (.create a nm ms fhe :: rest) =
      mintCountBy p (stepState s (.create a nm ms fhe)) rest := by
  unfold mintCountBy
  cases h : execOp s (.create a nm ms fhe) <;> simp <;> rw [← mintCountBy.eq_def]

theorem mintCountBy_cons_setHidden (p : Nat) (s : LedgerState) (a cid : Nat)
    (fhe : Option Nat) (rest : List Op) :
    mintCountBy p s (.setHidden a cid fhe :: rest) =
      mintCountBy p (stepState s (.setHidden a cid fhe)) rest := by
  unfold mintCountBy
  cases h : execOp s (.setHidden a cid fhe) <;> simp <;> rw [← mintCountBy.eq_def]

theorem mintCountTotal_cons_mint_ok {s : LedgerState} {a cid : Nat}
    {r : Nat × LedgerState} (h : mint s a cid = .ok r) (rest : List Op) :
    mintCountTotal s (.mintOp a cid :: rest) =
      1 + mintCountTotal (stepState s (.mintOp a cid)) rest := by
  unfold mintCountTotal
  simp only [execOp_mintOp, h]
  rw [← mintCountTotal.eq_def]

theorem mintCountTotal_cons_mint_error {s : LedgerState} {a cid : Nat}
    {e : Err} (h : mint s a cid = .error e) (rest : List Op) :
    mintCountTotal s (.mintOp a cid :: rest) =
      mintCountTotal (stepState s (.mintOp a cid)) rest := by
  unfold mintCountTotal
  simp only [execOp_mintOp, h]
  rw [← mintCountTotal.eq_def]

theorem mintCountTotal_cons_create (s : LedgerState) (a : Nat) (nm : String)
    (ms : Nat) (fhe : Option Nat) (rest : List Op) :
    mintCountTotal s (.create a nm ms fhe :: rest) =
      mintCountTotal (stepState s (.create a nm ms fhe)) rest := by
  unfold mintCountTotal
  cases h : execOp s (.create a nm ms fhe) <;> simp <;> rw [← mintCountTotal.eq_def]

theorem mintCountTotal_cons_setHidden (s : LedgerState) (a cid : Nat)
    (fhe : Option Nat) (rest : List Op) :
    mintCountTotal s (.setHidden a cid fhe :: rest) =
      mintCountTotal (stepState s (.setHidden a cid fhe)) rest := by
  unfold mintCountTotal
  cases h : execOp s (.setHidden a cid fhe) <;> simp <;> rw [← mintCountTotal.eq_def]

/-- Only successful mints by `p` change `p`'s balance, each by exactly one. -/
theorem balances_runOpsFrom (p : Nat) (ops : List Op) : ∀ s : LedgerState,
    (runOpsFrom s ops).balances p = s.balances p + mintCountBy p s ops := by
  induction ops with
  | nil => intro s; simp [mintCountBy]
  | cons o rest ih =>
    intro s
    rw [runOpsFrom_cons, ih]
    cases o with
    | create a nm ms fhe =>
      have hbal : (stepState s (.create a nm ms fhe)).balances p = s.balances p := by
        cases hc : execOp s (.create a nm ms fhe) with
        | ok r =>
          obtain ⟨id, s'⟩ := r
          obtain ⟨-, -, -, -, -, enc, -, rfl⟩ := createCollection_ok_elim (by simpa using hc)
          rw [stepState_of_ok hc]
          simp
        | error e => rw [stepState_of_error hc]
      rw [hbal, mintCountBy_cons_create]
    | setHidden a cid fhe =>
      have hbal : (stepState s (.setHidden a cid fhe)).balances p = s.balances p := by
        cases hc : execOp s (.setHidden a cid fhe) with
        | ok r =>
          obtain ⟨s0, hs0, rfl⟩ := execOp_setHidden_ok hc
          obtain ⟨-, -, enc, -, rfl⟩ := setHiddenOwner_ok_elim hs0
          rw [stepState_of_ok hc]
          simp
        | error e => rw [stepState_of_error hc]
      rw [hbal, mintCountBy_cons_setHidden]
    | mintOp a cid =>
      cases hc : mint s a cid with
      | ok r =>
        obtain ⟨t, s'⟩ := r
        obtain ⟨-, -, -, rfl⟩ := mint_ok_elim hc
        rw [mintCountBy_cons_mint_ok p hc rest,
          stepState_of_ok (show execOp s (.mintOp a cid) = .ok (t, mintResultState s a cid)
            from by simpa using hc)]
        simp only [mintResultState_balances]
        by_cases hp : p = a
        · rw [if_pos hp, if_pos (by omega), hp]
          omega
        · rw [if_neg hp, if_neg (by omega)]
          omega
      | error e =>
        rw [mintCountBy_cons_mint_error p hc rest,
          stepState_of_error (show execOp s (.mintOp a cid) = .error e from by simpa using hc)]

/-- Along a valid trace from a reachable state, the total minted count grows by
exactly the number of successful mints. -/
theorem colSum_minted_runOpsFrom (ops : List Op) : ∀ s : LedgerState, Reachable s →
    (∀ o ∈ ops, ValidOp o) →
    colSum (runOpsFrom s ops) (fun c => c.minted) =
      colSum s (fun c => c.minted) + mintCountTotal s ops := by
  induction ops with
  | nil => intro s _ _; simp [mintCountTotal]
  | cons o rest ih =>
    intro s hs hval
    have hvo : ValidOp o := hval o (by simp)
    have hvrest : ∀ o' ∈ rest, ValidOp o' := fun o' ho' => hval o' (by simp [ho'])
    have hstep : Reachable (stepState s o) := Reachable.step hs hvo
    rw [runOpsFrom_cons, ih (stepState s o) hstep hvrest]
    cases o with
    | create a nm ms fhe =>
      have hcs : colSum (stepState s (.create a nm ms fhe)) (fun c => c.minted) =
          colSum s (fun c => c.minted) := by
        cases hc : execOp s (.create a nm ms fhe) with
        | ok r =>
          obtain ⟨id, s'⟩ := r
          obtain ⟨-, -, -, -, -, enc, -, rfl⟩ := createCollection_ok_elim (by simpa using hc)
          rw [stepState_of_ok hc]
          show colSum (createResultState s a nm ms enc) (fun c => c.minted) = _
          rw [colSum_createResult]
          simp
        | error e => rw [stepState_of_error hc]
      rw [hcs, mintCountTotal_cons_create]
    | setHidden a cid fhe =>
      have hcs : colSum (stepState s (.setHidden a cid fhe)) (fun c => c.minted) =
          colSum s (fun c => c.minted) := by
        cases hc : execOp s (.setHidden a cid fhe) with
        | ok r =>
          obtain ⟨s0, hs0, rfl⟩ := execOp_setHidden_ok hc
          obtain ⟨-, -, enc, -, rfl⟩ := setHiddenOwner_ok_elim hs0
          rw [stepState_of_ok hc]
          exact colSum_setHiddenResult s cid enc _ (fun c h => rfl)
        | error e => rw [stepState_of_error hc]
      rw [hcs, mintCountTotal_cons_setHidden]
    | mintOp a cid =>
      cases hc : mint s a cid with
      | ok r =>
        obtain ⟨t, s'⟩ := r
        obtain ⟨hex, -, -, rfl⟩ := mint_ok_elim hc
        rw [mintCountTotal_cons_mint_ok hc rest,
          stepState_of_ok (show execOp s (.mintOp a cid) = .ok (t, mintResultState s a cid)
            from by simpa using hc)]
        rw [colSum_minted_mintResult (reachable_inv hs) a hex]
        omega
      | error e =>
        rw [mintCountTotal_cons_mint_error hc rest,
          stepState_of_error (show execOp s (.mintOp a cid) = .error e from by simpa using hc)]

/-- Two finite supersets of the support of a zero-default function carry the
same sum. -/
theorem sum_eq_of_supports {b : Nat → Nat} {T A : Finset Nat}
    (hT : ∀ p, p ∉ T → b p = 0) (hA : ∀ p, b p ≠ 0 → p ∈ A) :
    (∑ p in A, b p) = ∑ p in T, b p := by
  have h1 : (∑ p in A, b p) = ∑ p in A ∪ T, b p := by
    refine Finset.sum_subset Finset.subset_union_left (fun x _ hx => ?_)
    by_contra hb
    exact hx (hA x hb)
  have h2 : (∑ p in T, b p) = ∑ p in A ∪ T, b p := by
    refine Finset.sum_subset Finset.subset_union_right (fun x _ hx => ?_)
    exact hT x hx
  rw [h1, h2]

/-- Peeling the first element off a map over `List.range (n+1)`. -/
theorem map_range_succ_cons {α : Type} (f g : Nat → α) (y : α) (n : Nat)
    (h1 : f 0 = y) (h2 : ∀ k, f (Nat.succ k) = g k) :
    (List.range (n + 1)).map f = y :: (List.range n).map g := by
  rw [List.range_succ_eq_map, List.map_cons, List.map_map, h1]
  congr 1
  exact List.map_congr_left (fun k _ => h2 k)

theorem mintSeq_zero (a cid : Nat) (s : LedgerState) : mintSeq a cid s 0 = ([], s) := rfl

theorem mintSeq_succ_ok {s s' : LedgerState} {a cid t : Nat}
    (h : mint s a cid = .ok (t, s')) (n : Nat) :
    mintSeq a cid s (n + 1) =
      (.ok t :: (mintSeq a cid s' n).1, (mintSeq a cid s' n).2) := by
  unfold mintSeq
  simp only [h]
  rw [← mintSeq.eq_def]

theorem mintSeq_succ_error {s : LedgerState} {a cid : Nat} {e : Err}
    (h : mint s a cid = .error e) (n : Nat) :
    mintSeq a cid s (n + 1) =
      (.error e :: (mintSeq a cid s n).1, (mintSeq a cid s n).2) := by
  unfold mintSeq
  simp only [h]
  rw [← mintSeq.eq_def]

/-- Splitting a run of mint calls. -/
theorem mintSeq_append (a cid : Nat) (m : Nat) : ∀ (n : Nat) (s : LedgerState),
    (mintSeq a cid s (m + n)).1 =
      (mintSeq a cid s m).1 ++ (mintSeq a cid (mintSeq a cid s m).2 n).1 ∧
    (mintSeq a cid s (m + n)).2 = (mintSeq a cid (mintSeq a cid s m).2 n).2 := by
  induction m with
  | zero => intro n s; simp [mintSeq_zero, Nat.zero_add]
  | succ m ih =>
    intro n s
    have harith : m + 1 + n = (m + n) + 1 := by omega
    rw [harith]
    cases hc : mint s a cid with
    | ok r =>
      obtain ⟨t, s'⟩ := r
      rw [mintSeq_succ_ok hc (m + n), mintSeq_succ_ok hc m]
      obtain ⟨h1, h2⟩ := ih n s'
      simp [h1, h2]
    | error e =>
      rw [mintSeq_succ_error hc (m + n), mintSeq_succ_error hc m]
      obtain ⟨h1, h2⟩ := ih n s
      simp [h1, h2]

/-- A run of `n ≤ remaining supply` mint calls by one sender on an existing
collection succeeds call by call, handing out consecutive token ids, and adds
`n` to `minted` while keeping the collection's identity fields. -/
theorem mintSeq_run {a cid : Nat} (ha : a ≠ 0) : ∀ (n : Nat) (s : LedgerState),
    Reachable s →
    (s.collections cid).existsFlag = true →
    (s.collections cid).minted + n ≤ (s.collections cid).maxSupply →
    (mintSeq a cid s n).1 = (List.range n).map
      (fun k => Except.ok ((s.collections cid).baseTokenId + (s.collections cid).minted + k)) ∧
    Reachable (mintSeq a cid s n).2 ∧
    ((mintSeq a cid s n).2.collections cid).existsFlag = true ∧
    ((mintSeq a cid s n).2.collections cid).baseTokenId = (s.collections cid).baseTokenId ∧
    ((mintSeq a cid s n).2.collections cid).maxSupply = (s.collections cid).maxSupply ∧
    ((mintSeq a cid s n).2.collections cid).minted = (s.collections cid).minted + n := by
  intro n
  induction n with
  | zero =>
    intro s hs hex hn
    rw [mintSeq_zero]
    exact ⟨by simp, hs, hex, rfl, rfl, by simp⟩
  | succ n ih =>
    intro s hs hex hn
    have hInv := reachable_inv hs
    have hok := mint_ok_of hInv a cid hex (by omega)
    have hfst : (mintSeq a cid s (n + 1)).1 =
        .ok ((s.collections cid).baseTokenId + (s.collections cid).minted) ::
          (mintSeq a cid (mintResultState s a cid) n).1 := by
      rw [mintSeq_succ_ok hok n]
    have hsnd : (mintSeq a cid s (n + 1)).2 =
        (mintSeq a cid (mintResultState s a cid) n).2 := by
      rw [mintSeq_succ_ok hok n]
    have hreach' : Reachable (mintResultState s a cid) := by
      have := Reachable.step hs (show ValidOp (.mintOp a cid) from ha)
      rwa [stepState_of_ok (show execOp s (.mintOp a cid) =
        .ok ((s.collections cid).baseTokenId + (s.collections cid).minted,
             mintResultState s a cid) from by simpa using hok)] at this
    have hex' : ((mintResultState s a cid).collections cid).existsFlag = true := by
      simp only [mintResultState_collections, if_pos rfl]
      simpa using hex
    have hbase' : ((mintResultState s a cid).collections cid).baseTokenId =
        (s.collections cid).baseTokenId := by simp
    have hmax' : ((mintResultState s a cid).collections cid).maxSupply =
        (s.collections cid).maxSupply := by simp
    have hmin' : ((mintResultState s a cid).collections cid).minted =
        (s.collections cid).minted + 1 := by simp
    obtain ⟨hlist, hr2, he2, hb2, hm2, hq2⟩ :=
      ih (mintResultState s a cid) hreach' hex' (by omega)
    refine ⟨?_, ?_, ?_, ?_, ?_, ?_⟩
    · rw [hfst, hlist, hbase', hmin']
      refine (map_range_succ_cons _ _ _ n ?_ ?_).symm
      · show (Except.ok ((s.collections cid).baseTokenId + (s.collections cid).minted + 0) :
            Except Err Nat) =
          Except.ok ((s.collections cid).baseTokenId + (s.collections cid).minted)
        congr 1
      · intro k
        show (Except.ok ((s.collections cid).baseTokenId + (s.collections cid).minted + (k + 1)) :
            Except Err Nat) =
          Except.ok ((s.collections cid).baseTokenId + ((s.collections cid).minted + 1) + k)
        congr 1
        omega
    · rw [hsnd]
      exact hr2
    · rw [hsnd]
      exact he2
    · rw [hsnd, hb2, hbase']
    · rw [hsnd, hm2, hmax']
    · rw [hsnd, hq2, hmin']
      omega

/-- The view-collecting loop succeeds on ids `1..n` when they all exist, and
returns the persisted fields. -/
theorem collectViews_ok {s : LedgerState} : ∀ n : Nat,
    (∀ i, 1 ≤ i → i ≤ n → (s.collections i).existsFlag = true) →
    collectViews s n = .ok ((List.range n).map (fun i =>
      { id := i + 1, name := (s.collections (i + 1)).name,
        maxSupply := (s.collections (i + 1)).maxSupply,
        minted := (s.collections (i + 1)).minted,
        creator := (s.collections (i + 1)).creator,
        baseTokenId := (s.collections (i + 1)).baseTokenId,
        hiddenOwner := (s.collections (i + 1)).hiddenOwner })) := by
  intro n
  induction n with
  | zero => intro _; simp [collectViews]
  | succ n ih =>
    intro hall
    have hex : (s.collections (n + 1)).existsFlag = true := hall (n + 1) (by omega) (by omega)
    have hget : getCollection s (n + 1) = .ok
        { id := n + 1, name := (s.collections (n + 1)).name,
          maxSupply := (s.collections (n + 1)).maxSupply,
          minted := (s.collections (n + 1)).minted,
          creator := (s.collections (n + 1)).creator,
          baseTokenId := (s.collections (n + 1)).baseTokenId,
          hiddenOwner := (s.collections (n + 1)).hiddenOwner } := by
      unfold getCollection
      rw [if_neg (by simp [hex])]
    unfold collectViews
    rw [ih (fun i h1 h2 => hall i h1 (by omega)), hget]
    rw [List.range_succ, List.map_append]
    rfl

/-! Claim theorems. -/

/-- C1: in every reachable ledger state every collection satisfies
`0 ≤ minted ≤ maxSupply`; `minted` never decreases across any operation; and on
an existing collection `mint` fails with `SupplyExhausted` exactly when
`minted = maxSupply`, never before (it succeeds whenever `minted < maxSupply`). -/
theorem C1_supply_invariant {s : LedgerState} (hs : Reachable s) :
    (∀ i, 0 ≤ (s.collections i).minted ∧
      (s.collections i).minted ≤ (s.collections i).maxSupply) ∧
    (∀ (o : Op) (i : Nat),
      (s.collections i).minted ≤ ((stepState s o).collections i).minted) ∧
    (∀ a cid, (s.collections cid).existsFlag = true →
      ((mint s a cid = .error .SupplyExhausted ↔
        (s.collections cid).minted = (s.collections cid).maxSupply) ∧
       ((s.collections cid).minted < (s.collections cid).maxSupply →
        ∃ r, mint s a cid = .ok r))) := by
  have hInv := reachable_inv hs
  refine ⟨?_, ?_, ?_⟩
  · intro i
    refine ⟨Nat.zero_le _, ?_⟩
    by_cases hex : (s.collections i).existsFlag = true
    · exact hInv.minted_le i hex
    · rw [hInv.default_of_not_exists (by simpa using hex)]
      simp [defaultCollection]
  · intro o i
    cases hr : execOp s o with
    | error e => rw [stepState_of_error hr]
    | ok r =>
      rw [stepState_of_ok hr]
      cases o with
      | create a nm ms fhe =>
        obtain ⟨id, s'⟩ := r
        obtain ⟨-, -, -, -, -, enc, -, rfl⟩ := createCollection_ok_elim (by simpa using hr)
        simp only [createResultState_collections]
        by_cases hi : i = s.collectionCount + 1
        · rw [if_pos hi]
          rw [hInv.default_out i (by omega)]
          simp [defaultCollection]
        · rw [if_neg hi]
      | setHidden a cid fhe =>
        obtain ⟨s0, hs0, rfl⟩ := execOp_setHidden_ok hr
        obtain ⟨-, -, enc, -, rfl⟩ := setHiddenOwner_ok_elim hs0
        simp only [setHiddenResultState_collections]
        by_cases hi : i = cid
        · rw [if_pos hi, hi]
        · rw [if_neg hi]
      | mintOp a cid =>
        obtain ⟨t, s'⟩ := r
        obtain ⟨-, -, -, rfl⟩ := mint_ok_elim (by simpa using hr)
        simp only [mintResultState_collections]
        by_cases hi : i = cid
        · rw [if_pos hi, hi]
          simp
        · rw [if_neg hi]
  · intro a cid hex
    constructor
    · rw [mint_supplyExhausted_iff]
      constructor
      · rintro ⟨-, hge⟩
        have := hInv.minted_le cid hex
        omega
      · intro heq
        exact ⟨hex, by omega⟩
    · intro hlt
      exact ⟨_, mint_ok_of hInv a cid hex hlt⟩

/-- Witness for C1 at the concrete reachable state `exState1`. -/
theorem C1_supply_invariant_witness :
    (∀ i, 0 ≤ (exState1.collections i).minted ∧
      (exState1.collections i).minted ≤ (exState1.collections i).maxSupply) ∧
    (∀ (o : Op) (i : Nat),
      (exState1.collections i).minted ≤ ((stepState exState1 o).collections i).minted) ∧
    (∀ a cid, (exState1.collections cid).existsFlag = true →
      ((mint exState1 a cid = .error .SupplyExhausted ↔
        (exState1.collections cid).minted = (exState1.collections cid).maxSupply) ∧
       ((exState1.collections cid).minted < (exState1.collections cid).maxSupply →
        ∃ r, mint exState1 a cid = .ok r))) :=
  C1_supply_invariant reachable_exState1

/-- C2: a successful `mint` on an existing collection with remaining supply
returns `baseTokenId + minted` (the pre-call value), bumps `minted` by one,
stores the caller as the token's owner, bumps the caller's balance by one and
records the token's collection; starting from a fresh collection,
`maxSupply + 1` consecutive mint calls return
`baseTokenId, ..., baseTokenId + maxSupply - 1` followed by `SupplyExhausted`,
and the failed call leaves `minted = maxSupply`. -/
theorem C2_mint_effects {s : LedgerState} (hs : Reachable s) (a cid : Nat) (ha : a ≠ 0)
    (hex : (s.collections cid).existsFlag = true) :
    ((s.collections cid).minted < (s.collections cid).maxSupply →
      mint s a cid = .ok ((s.collections cid).baseTokenId + (s.collections cid).minted,
        mintResultState s a cid) ∧
      ((mintResultState s a cid).collections cid).minted = (s.collections cid).minted + 1 ∧
      (mintResultState s a cid).owners
        ((s.collections cid).baseTokenId + (s.collections cid).minted) = a ∧
      (mintResultState s a cid).balances a = s.balances a + 1 ∧
      (mintResultState s a cid).tokenToCollection
        ((s.collections cid).baseTokenId + (s.collections cid).minted) = cid) ∧
    ((s.collections cid).minted = 0 →
      (mintSeq a cid s ((s.collections cid).maxSupply + 1)).1 =
        ((List.range (s.collections cid).maxSupply).map
          (fun k => Except.ok ((s.collections cid).baseTokenId + k))) ++
          [Except.error Err.SupplyExhausted] ∧
      (((mintSeq a cid s ((s.collections cid).maxSupply + 1)).2).collections cid).minted =
        (s.collections cid).maxSupply) := by
  have hInv := reachable_inv hs
  constructor
  · intro hlt
    exact ⟨mint_ok_of hInv a cid hex hlt, by simp, by simp, by simp, by simp⟩
  · intro h0
    obtain ⟨hlist, hr2, he2, hb2, hm2, hq2⟩ :=
      mintSeq_run ha ((s.collections cid).maxSupply) s hs hex (by omega)
    have hfail : mint s a cid = mint s a cid := rfl
    have hfail2 : mint (mintSeq a cid s (s.collections cid).maxSupply).2 a cid =
        .error .SupplyExhausted := by
      rw [mint_supplyExhausted_iff]
      exact ⟨he2, by omega⟩
    obtain ⟨sp1, sp2⟩ := mintSeq_append a cid ((s.collections cid).maxSupply) 1 s
    have h1f : (mintSeq a cid (mintSeq a cid s (s.collections cid).maxSupply).2 1).1 =
        [Except.error Err.SupplyExhausted] := by
      show (mintSeq a cid (mintSeq a cid s (s.collections cid).maxSupply).2 (0 + 1)).1 = _
      rw [mintSeq_succ_error hfail2 0]
      rfl
    have h1s : (mintSeq a cid (mintSeq a cid s (s.collections cid).maxSupply).2 1).2 =
        (mintSeq a cid s (s.collections cid).maxSupply).2 := by
      show (mintSeq a cid (mintSeq a cid s (s.collections cid).maxSupply).2 (0 + 1)).2 = _
      rw [mintSeq_succ_error hfail2 0]
      rfl
    constructor
    · rw [sp1, hlist, h1f]
      congr 1
      refine List.map_congr_left (fun k _ => ?_)
      congr 1
      omega
    · rw [sp2, h1s, hq2]
      omega

/-- Witness for C2: at `exState1` (collection 1, maxSupply 2, minted 0) a mint
by principal 8 returns token id `baseTokenId + minted` with all recorded effects. -/
theorem C2_mint_effects_witness :
    mint exState1 8 1 = .ok ((exState1.collections 1).baseTokenId +
        (exState1.collections 1).minted, mintResultState exState1 8 1) ∧
    ((mintResultState exState1 8 1).collections 1).minted =
      (exState1.collections 1).minted + 1 ∧
    (mintResultState exState1 8 1).owners
      ((exState1.collections 1).baseTokenId + (exState1.collections 1).minted) = 8 ∧
    (mintResultState exState1 8 1).balances 8 = exState1.balances 8 + 1 ∧
    (mintResultState exState1 8 1).tokenToCollection
      ((exState1.collections 1).baseTokenId + (exState1.collections 1).minted) = 1 :=
  (C2_mint_effects reachable_exState1 8 1 (by decide) (by decide)).1 (by decide)

/-- C3: across any trace of external calls from deployment, the successful
`createCollection` calls return exactly the ids `1, 2, ..., totalCollections`,
in order: the first id is 1, each is one more than the previous, id 0 is never
issued and no id is ever issued twice. -/
theorem C3_sequential_ids (ops : List Op) :
    createdIds initState ops = List.range' 1 (runOps ops).collectionCount := by
  have h := createdIds_spec ops initState
  simpa [initState, runOps] using h

/-- C4: `_nextTokenId` starts at 1, a successful creation hands out
`baseTokenId = _nextTokenId` and advances the cursor by exactly `maxSupply`,
and in every reachable state the reserved ranges
`[baseTokenId, baseTokenId + maxSupply - 1]` of distinct collections are
disjoint. -/
theorem C4_range_allocation {s : LedgerState} (hs : Reachable s) :
    initState.nextTokenId = 1 ∧
    (∀ (a : Nat) (nm : String) (ms : Nat) (fhe : Option Nat) (id : Nat)
      (s' : LedgerState), createCollection s a nm ms fhe = .ok (id, s') →
      (s'.collections id).baseTokenId = s.nextTokenId ∧
      s'.nextTokenId = s.nextTokenId + ms) ∧
    (∀ i j, i ≠ j → (s.collections i).existsFlag = true →
      (s.collections j).existsFlag = true →
      ∀ t, ¬((s.collections i).baseTokenId ≤ t ∧
             t ≤ (s.collections i).baseTokenId + (s.collections i).maxSupply - 1 ∧
             (s.collections j).baseTokenId ≤ t ∧
             t ≤ (s.collections j).baseTokenId + (s.collections j).maxSupply - 1)) := by
  have hInv := reachable_inv hs
  refine ⟨rfl, ?_, ?_⟩
  · intro a nm ms fhe id s' h
    obtain ⟨-, -, -, -, hid, enc, -, rfl⟩ := createCollection_ok_elim h
    subst hid
    constructor
    · simp
    · simp
  · intro i j hij hie hje t hcon
    obtain ⟨h1, h2, h3, h4⟩ := hcon
    have hpi := hInv.supply_pos i hie
    have hpj := hInv.supply_pos j hje
    exact hInv.ranges_disjoint hie hje hij h1 (by omega) h3 (by omega)

/-- Witness for C4 at the concrete reachable state `exState1`. -/
theorem C4_range_allocation_witness :
    initState.nextTokenId = 1 ∧
    (∀ (a : Nat) (nm : String) (ms : Nat) (fhe : Option Nat) (id : Nat)
      (s' : LedgerState), createCollection exState1 a nm ms fhe = .ok (id, s') →
      (s'.collections id).baseTokenId = exState1.nextTokenId ∧
      s'.nextTokenId = exState1.nextTokenId + ms) ∧
    (∀ i j, i ≠ j → (exState1.collections i).existsFlag = true →
      (exState1.collections j).existsFlag = true →
      ∀ t, ¬((exState1.collections i).baseTokenId ≤ t ∧
             t ≤ (exState1.collections i).baseTokenId +
               (exState1.collections i).maxSupply - 1 ∧
             (exState1.collections j).baseTokenId ≤ t ∧
             t ≤ (exState1.collections j).baseTokenId +
               (exState1.collections j).maxSupply - 1)) :=
  C4_range_allocation reachable_exState1

/-- C5: `setHiddenOwner` reverts `InvalidCollection` on a non-existing
collection; a caller other than the creator gets `NotCollectionOwner` and the
stored record (hence the stored handle) is unchanged; only a call whose sender
equals the creator can succeed, and a successful call stores exactly the newly
validated handle. -/
theorem C5_setHiddenOwner_auth (s : LedgerState) (a cid : Nat) (fhe : Option Nat) :
    ((s.collections cid).existsFlag = false →
      setHiddenOwner s a cid fhe = .error .InvalidCollection) ∧
    ((s.collections cid).existsFlag = true → (s.collections cid).creator ≠ a →
      setHiddenOwner s a cid fhe = .error .NotCollectionOwner ∧
      (stepState s (.setHidden a cid fhe)).collections cid = s.collections cid) ∧
    (∀ s', setHiddenOwner s a cid fhe = .ok s' →
      (s.collections cid).creator = a ∧
      ∃ enc, fhe = some enc ∧ (s'.collections cid).hiddenOwner = enc) ∧
    ((s.collections cid).existsFlag = true → (s.collections cid).creator = a →
      ∀ enc, fhe = some enc →
      setHiddenOwner s a cid fhe = .ok (setHiddenResultState s cid enc)) := by
  refine ⟨?_, ?_, ?_, ?_⟩
  · intro hex
    unfold setHiddenOwner
    rw [if_pos hex]
  · intro hex hcr
    have herr : setHiddenOwner s a cid fhe = .error .NotCollectionOwner := by
      unfold setHiddenOwner
      rw [if_neg (by simp [hex]), if_pos hcr]
    refine ⟨herr, ?_⟩
    rw [stepState_of_error (show execOp s (.setHidden a cid fhe) =
      .error .NotCollectionOwner from by simp [execOp, herr, Except.map])]
  · intro s' h
    obtain ⟨hex, hcr, enc, hfhe, rfl⟩ := setHiddenOwner_ok_elim h
    exact ⟨hcr, enc, hfhe, by simp⟩
  · intro hex hcr enc hfhe
    subst hfhe
    unfold setHiddenOwner
    rw [if_neg (by simp [hex]), if_neg (by simp [hcr])]

/-- Witness for C5 at `exState1` (collection 1, creator 5): principal 9 is
rejected with the record untouched, the creator's call succeeds and stores the
new handle, and a non-existing collection id is rejected. -/
theorem C5_setHiddenOwner_auth_witness :
    setHiddenOwner exState1 9 1 (some 3) = .error .NotCollectionOwner ∧
    (stepState exState1 (.setHidden 9 1 (some 3))).collections 1 =
      exState1.collections 1 ∧
    setHiddenOwner exState1 5 1 (some 3) = .ok (setHiddenResultState exState1 1 3) ∧
    setHiddenOwner exState1 9 2 (some 3) = .error .InvalidCollection :=
  ⟨((C5_setHiddenOwner_auth exState1 9 1 (some 3)).2.1 (by decide) (by decide)).1,
   ((C5_setHiddenOwner_auth exState1 9 1 (some 3)).2.1 (by decide) (by decide)).2,
   (C5_setHiddenOwner_auth exState1 5 1 (some 3)).2.2.2 (by decide) (by decide) 3 rfl,
   (C5_setHiddenOwner_auth exState1 9 2 (some 3)).1 (by decide)⟩

/-- C6: every failing call is atomic: when `createCollection`, `setHiddenOwner`
or `mint` returns any error, the ledger state after the call equals the state
before it — counters, collection records, owner map, balances and the
token-collection map are all untouched. -/
theorem C6_atomic_errors (s : LedgerState) (o : Op) (e : Err)
    (h : execOp s o = .error e) :
    stepState s o = s ∧
    (stepState s o).collectionCount = s.collectionCount ∧
    (stepState s o).nextTokenId = s.nextTokenId ∧
    (∀ i, (stepState s o).collections i = s.collections i) ∧
    (∀ t, (stepState s o).owners t = s.owners t) ∧
    (∀ p, (stepState s o).balances p = s.balances p) ∧
    (∀ t, (stepState s o).tokenToCollection t = s.tokenToCollection t) := by
  have hstep := stepState_of_error h
  rw [hstep]
  exact ⟨rfl, rfl, rfl, fun _ => rfl, fun _ => rfl, fun _ => rfl, fun _ => rfl⟩

/-- Witness for C6: minting from the never-created collection 1 of the freshly
deployed ledger fails with `InvalidCollection` and changes nothing. -/
theorem C6_atomic_errors_witness :
    stepState initState (.mintOp 8 1) = initState ∧
    (stepState initState (.mintOp 8 1)).collectionCount = initState.collectionCount ∧
    (stepState initState (.mintOp 8 1)).nextTokenId = initState.nextTokenId ∧
    (∀ i, (stepState initState (.mintOp 8 1)).collections i = initState.collections i) ∧
    (∀ t, (stepState initState (.mintOp 8 1)).owners t = initState.owners t) ∧
    (∀ p, (stepState initState (.mintOp 8 1)).balances p = initState.balances p) ∧
    (∀ t, (stepState initState (.mintOp 8 1)).tokenToCollection t =
      initState.tokenToCollection t) :=
  C6_atomic_errors initState (.mintOp 8 1) .InvalidCollection rfl

/-- C7: after any trace from deployment, `balanceOf p` for a nonzero principal
returns exactly the number of successful mint calls whose sender was `p`
(0 when `p` never minted), and `balanceOf` of the zero principal fails with
`ZeroAddress`. -/
theorem C7_balanceOf_counts (ops : List Op) (p : Nat) :
    (p ≠ 0 → balanceOf (runOps ops) p = .ok (mintCountBy p initState ops)) ∧
    balanceOf (runOps ops) 0 = .error .ZeroAddress := by
  constructor
  · intro hp
    unfold balanceOf
    rw [if_neg hp]
    congr 1
    show (runOpsFrom initState ops).balances p = _
    rw [balances_runOpsFrom p ops initState]
    simp [initState]
  · unfold balanceOf
    rw [if_pos rfl]

/-- Witness for C7 on the concrete trace `exTrace` (principal 9 mints twice). -/
theorem C7_balanceOf_counts_witness :
    balanceOf (runOps exTrace) 9 = .ok (mintCountBy 9 initState exTrace) ∧
    mintCountBy 9 initState exTrace = 2 ∧
    balanceOf (runOps exTrace) 0 = .error .ZeroAddress :=
  ⟨(C7_balanceOf_counts exTrace 9).1 (by decide), by decide,
   (C7_balanceOf_counts exTrace 9).2⟩

/-- C8: in every reachable state `getAllCollections` succeeds and returns one
view per created collection, ordered by ascending id `1..totalCollections`,
each view carrying the persisted record's fields and the collection's own id. -/
theorem C8_getAllCollections_snapshot {s : LedgerState} (hs : Reachable s) :
    getAllCollections s = .ok ((List.range s.collectionCount).map (fun i =>
      { id := i + 1, name := (s.collections (i + 1)).name,
        maxSupply := (s.collections (i + 1)).maxSupply,
        minted := (s.collections (i + 1)).minted,
        creator := (s.collections (i + 1)).creator,
        baseTokenId := (s.collections (i + 1)).baseTokenId,
        hiddenOwner := (s.collections (i + 1)).hiddenOwner })) := by
  have hInv := reachable_inv hs
  unfold getAllCollections
  exact collectViews_ok s.collectionCount (fun i h1 h2 => hInv.exists_in i h1 h2)

/-- Witness for C8 at the concrete reachable state `exState1`. -/
theorem C8_getAllCollections_snapshot_witness :
    getAllCollections exState1 = .ok ((List.range exState1.collectionCount).map (fun i =>
      { id := i + 1, name := (exState1.collections (i + 1)).name,
        maxSupply := (exState1.collections (i + 1)).maxSupply,
        minted := (exState1.collections (i + 1)).minted,
        creator := (exState1.collections (i + 1)).creator,
        baseTokenId := (exState1.collections (i + 1)).baseTokenId,
        hiddenOwner := (exState1.collections (i + 1)).hiddenOwner })) :=
  C8_getAllCollections_snapshot reachable_exState1

/-- C9: in every reachable state the zero principal holds no balance and the
sum of all balances (over any finite set containing every principal with a
nonzero balance) equals the sum of `minted` over all collections; along any
valid trace that common value is exactly the number of successful mint calls. -/
theorem C9_balance_conservation :
    (∀ s : LedgerState, Reachable s →
      s.balances 0 = 0 ∧
      ∀ A : Finset Nat, (∀ p, s.balances p ≠ 0 → p ∈ A) →
        (∑ p in A, s.balances p) = colSum s (fun c => c.minted)) ∧
    (∀ ops : List Op, (∀ o ∈ ops, ValidOp o) →
      colSum (runOps ops) (fun c => c.minted) = mintCountTotal initState ops) := by
  constructor
  · intro s hs
    have hInv := reachable_inv hs
    obtain ⟨T, h0, hout, hsum⟩ := hInv.bal_sum
    constructor
    · exact hout 0 h0
    · intro A hA
      rw [sum_eq_of_supports hout hA, hsum]
  · intro ops hval
    show colSum (runOpsFrom initState ops) _ = _
    rw [colSum_minted_runOpsFrom ops initState Reachable.init hval]
    simp [colSum, initState]

/-- Witness for C9 at the reachable state `exState2` and the trace `exTrace`. -/
theorem C9_balance_conservation_witness :
    exState2.balances 0 = 0 ∧
    (∀ A : Finset Nat, (∀ p, exState2.balances p ≠ 0 → p ∈ A) →
      (∑ p in A, exState2.balances p) = colSum exState2 (fun c => c.minted)) ∧
    colSum (runOps exTrace) (fun c => c.minted) = mintCountTotal initState exTrace :=
  ⟨(C9_balance_conservation.1 exState2 reachable_exState2).1,
   (C9_balance_conservation.1 exState2 reachable_exState2).2,
   C9_balance_conservation.2 exTrace (by decide)⟩

/-- C10: in every reachable state, for every token id `t` the three token
records agree: `tokenExists t` holds iff `ownerOf t` succeeds iff
`tokenCollection t` succeeds; a never-minted `t` makes `ownerOf` and
`tokenCollection` fail with `InvalidToken` while `tokenExists` returns
`false`; and on success `tokenCollection` returns the unique existing
collection whose reserved range contains `t`. -/
theorem C10_token_records_consistent {s : LedgerState} (hs : Reachable s) (t : Nat) :
    (tokenExists s t = true ↔ ∃ a, ownerOf s t = .ok a) ∧
    (tokenExists s t = true ↔ ∃ cid, tokenCollection s t = .ok cid) ∧
    (tokenExists s t = false →
      ownerOf s t = .error .InvalidToken ∧ tokenCollection s t = .error .InvalidToken) ∧
    (∀ cid, tokenCollection s t = .ok cid →
      (s.collections cid).existsFlag = true ∧
      (s.collections cid).baseTokenId ≤ t ∧
      t ≤ (s.collections cid).baseTokenId + (s.collections cid).maxSupply - 1 ∧
      ∀ j, (s.collections j).existsFlag = true →
        (s.collections j).baseTokenId ≤ t →
        t ≤ (s.collections j).baseTokenId + (s.collections j).maxSupply - 1 → j = cid) := by
  have hInv := reachable_inv hs
  have htex : tokenExists s t = true ↔ s.owners t ≠ 0 := by
    unfold tokenExists
    simp
  have htexf : tokenExists s t = false ↔ s.owners t = 0 := by
    unfold tokenExists
    simp
  have hkey : s.owners t ≠ 0 ↔ s.tokenToCollection t ≠ 0 := by
    constructor
    · intro h
      obtain ⟨i, hie, hb, hm⟩ := (hInv.owners_iff t).mp h
      rw [hInv.t2c_in i hie t hb hm]
      have := (hInv.exists_bounds hie).1
      omega
    · intro h
      by_cases h0 : s.owners t = 0
      · exfalso
        have hnm : ¬ MintedTok s t := fun hm => ((hInv.owners_iff t).mpr hm) h0
        exact h (hInv.t2c_out t hnm)
      · exact h0
  refine ⟨?_, ?_, ?_, ?_⟩
  · constructor
    · intro h
      have hne := htex.mp h
      exact ⟨s.owners t, by unfold ownerOf; rw [if_neg hne]⟩
    · rintro ⟨a', ha'⟩
      refine htex.mpr (fun h0 => ?_)
      unfold ownerOf at ha'
      rw [if_pos h0] at ha'
      cases ha'
  · constructor
    · intro h
      have hne := hkey.mp (htex.mp h)
      exact ⟨s.tokenToCollection t, by unfold tokenCollection; rw [if_neg hne]⟩
    · rintro ⟨cid, hcid⟩
      refine htex.mpr (hkey.mpr (fun h0 => ?_))
      unfold tokenCollection at hcid
      rw [if_pos h0] at hcid
      cases hcid
  · intro h
    have h0 := htexf.mp h
    have ht2c0 : s.tokenToCollection t = 0 := by
      by_contra hne
      exact (hkey.mpr hne) h0
    constructor
    · unfold ownerOf
      rw [if_pos h0]
    · unfold tokenCollection
      rw [if_pos ht2c0]
  · intro cid hcid
    unfold tokenCollection at hcid
    by_cases h0 : s.tokenToCollection t = 0
    · rw [if_pos h0] at hcid
      cases hcid
    · rw [if_neg h0] at hcid
      have hown : s.owners t ≠ 0 := hkey.mpr h0
      obtain ⟨i, hie, hb, hm⟩ := (hInv.owners_iff t).mp hown
      have ht2i : s.tokenToCollection t = i := hInv.t2c_in i hie t hb hm
      have hicid : i = cid := by
        simp only [Except.ok.injEq] at hcid
        omega
      subst hicid
      have hml := hInv.minted_le i hie
      have hsp := hInv.supply_pos i hie
      refine ⟨hie, hb, by omega, ?_⟩
      intro j hje hjb hjm
      by_contra hne
      have hspj := hInv.supply_pos j hje
      exact hInv.ranges_disjoint hje hie hne hjb (by omega) hb (by omega)

/-- Witness for C10 at `exState2` and token id 1 (minted by principal 8). -/
theorem C10_token_records_consistent_witness :
    (tokenExists exState2 1 = true ↔ ∃ a, ownerOf exState2 1 = .ok a) ∧
    (tokenExists exState2 1 = true ↔ ∃ cid, tokenCollection exState2 1 = .ok cid) ∧
    (tokenExists exState2 1 = false →
      ownerOf exState2 1 = .error .InvalidToken ∧
      tokenCollection exState2 1 = .error .InvalidToken) ∧
    (∀ cid, tokenCollection exState2 1 = .ok cid →
      (exState2.collections cid).existsFlag = true ∧
      (exState2.collections cid).baseTokenId ≤ 1 ∧
      1 ≤ (exState2.collections cid).baseTokenId +
        (exState2.collections cid).maxSupply - 1 ∧
      ∀ j, (exState2.collections j).existsFlag = true →
        (exState2.collections j).baseTokenId ≤ 1 →
        1 ≤ (exState2.collections j).baseTokenId +
          (exState2.collections j).maxSupply - 1 → j = cid) :=
  C10_token_records_consistent reachable_exState2 1

end NovaMint
